import Mathlib

/-!
Verification of the aeronav tiling pipeline.

This file gives a shallow embedding of the core of the aeronav repository
(manifest.c, vrt.c, tiling.c, processing.c, jobqueue.c) and proves, or
refutes, the stated properties of the natural-language specification.

Modelling conventions:
* C doubles are modelled as exact rationals (ℚ); a C cast `(int)` of a
  double is truncation toward zero (`ctrunc`).
* The transcendental part of the inverse-Mercator latitude formula
  (`asinh(tan(lat*pi/180))/pi` in `get_tile_at_zoom`) is abstracted as a
  function parameter `mercY : ℚ → ℚ`; every statement that involves it is
  proved for all such parameters, or refuted at an instantiation that
  agrees with the real function on the latitudes used.
* Fallible C paths return `Option`; external libc/GDAL calls are modelled
  by their documented contracts (e.g. `qsort` as an arbitrary
  comparator-respecting permutation, file IO as an environment record).
-/

namespace Aeronav

/-- Truncation toward zero, the semantics of a C `(int)` cast of a double:
dividing the numerator by the (positive) denominator with integer
T-division rounds toward zero. -/
def ctrunc (q : ℚ) : ℤ := q.num / (q.den : ℤ)

/-- ORIGIN_SHIFT constant from aeronav.h: `20037508.342789244` (the code's
decimal literal for pi times the Earth radius 6378137). -/
def ORIGIN_SHIFT : ℚ := 20037508.342789244

/-- TILE_SIZE constant from aeronav.h. -/
def TILE_SIZE : ℕ := 256

/-! ## tiling.c: GlobalMercator calculations -/

/-- Embedding of `resolution_for_zoom` (tiling.c): meters/pixel at a zoom,
`world_size / (tile_count * TILE_SIZE)` with `world_size = 2 * ORIGIN_SHIFT`
and `tile_count = 2 ^ zoom`. -/
def resolution_for_zoom (zoom : ℕ) : ℚ :=
  (2 * ORIGIN_SHIFT) / (2 ^ zoom * (TILE_SIZE : ℚ))

/-- The EPSG:3857 extent of a tile, the four out-parameters of
`tile_bounds` (tiling.c). -/
structure TileBounds where
  min_x : ℚ
  min_y : ℚ
  max_x : ℚ
  max_y : ℚ
  deriving DecidableEq, Repr

/-- Embedding of `tile_bounds` (tiling.c): extent of tile (z,x,y) in
EPSG:3857 meters; the XYZ row is converted to a TMS row by
`tms_y = (1 << z) - 1 - y`. -/
def tile_bounds (z x y : ℕ) : TileBounds :=
  let res : ℚ := resolution_for_zoom z * (TILE_SIZE : ℚ)
  let tms_y : ℤ := ((2 : ℤ) ^ z - 1) - (y : ℤ)
  { min_x := -ORIGIN_SHIFT + (x : ℚ) * res
    max_x := -ORIGIN_SHIFT + ((x : ℚ) + 1) * res
    min_y := -ORIGIN_SHIFT + (tms_y : ℚ) * res
    max_y := -ORIGIN_SHIFT + ((tms_y : ℚ) + 1) * res }

theorem resolution_mul_tile : ∀ z : ℕ,
    resolution_for_zoom z * (TILE_SIZE : ℚ) = 2 * ORIGIN_SHIFT / 2 ^ z := by
  intro z
  unfold resolution_for_zoom TILE_SIZE
  have h : ((2 : ℚ) ^ z) ≠ 0 := by positivity
  field_simp
  ring

theorem origin_shift_pos : (0 : ℚ) < ORIGIN_SHIFT := by norm_num [ORIGIN_SHIFT]

/-- C9: for every zoom z ≥ 0, `resolution_for_zoom(z) * 256 * 2^z` equals
`2 * pi * 6378137` within 1 ULP (the double spacing at that magnitude,
`2^-27`); in the exact-rational model the product is exactly
`2 * ORIGIN_SHIFT`, and that constant is within 1 ULP of `2*pi*6378137`. -/
theorem resolution_formula_within_ulp (z : ℕ) :
    (resolution_for_zoom z * (TILE_SIZE : ℚ) * 2 ^ z : ℚ) = 2 * ORIGIN_SHIFT ∧
    |((2 * ORIGIN_SHIFT : ℚ) : ℝ) - 2 * Real.pi * 6378137| ≤ (2 : ℝ) ^ (-(27 : ℤ)) := by
  constructor
  · rw [resolution_mul_tile]
    have h : ((2 : ℚ) ^ z) ≠ 0 := by positivity
    field_simp
  · have h1 := Real.pi_gt_d20
    have h2 := Real.pi_lt_d20
    have hos : ((2 * ORIGIN_SHIFT : ℚ) : ℝ) = 40075016.685578488 := by
      norm_num [ORIGIN_SHIFT]
    have hp : ((2 : ℝ) ^ (-(27 : ℤ))) = 1 / 134217728 := by norm_num
    rw [abs_le, hos, hp]
    constructor <;> nlinarith [h1, h2]

/-- C8: the tile extent computed by `tile_bounds` follows the stated X/Y
span formulas, lies inside the square `[-ORIGIN_SHIFT, ORIGIN_SHIFT]^2`
(the code's `[-pi*R, pi*R]^2`), and horizontally or vertically adjacent
tiles share an edge coordinate exactly. -/
theorem tile_extent_geometry (z x y : ℕ) (hx : x < 2 ^ z) (hy : y < 2 ^ z) :
    (tile_bounds z x y).min_x
        = -ORIGIN_SHIFT + (x : ℚ) * (256 * resolution_for_zoom z) ∧
    (tile_bounds z x y).max_x
        = -ORIGIN_SHIFT + ((x : ℚ) + 1) * (256 * resolution_for_zoom z) ∧
    (tile_bounds z x y).min_y
        = -ORIGIN_SHIFT + ((2 ^ z - 1 - y : ℤ) : ℚ) * (256 * resolution_for_zoom z) ∧
    (tile_bounds z x y).max_y
        = -ORIGIN_SHIFT + (((2 ^ z - 1 - y : ℤ) : ℚ) + 1) * (256 * resolution_for_zoom z) ∧
    -ORIGIN_SHIFT ≤ (tile_bounds z x y).min_x ∧
    (tile_bounds z x y).min_x < (tile_bounds z x y).max_x ∧
    (tile_bounds z x y).max_x ≤ ORIGIN_SHIFT ∧
    -ORIGIN_SHIFT ≤ (tile_bounds z x y).min_y ∧
    (tile_bounds z x y).min_y < (tile_bounds z x y).max_y ∧
    (tile_bounds z x y).max_y ≤ ORIGIN_SHIFT ∧
    (tile_bounds z (x + 1) y).min_x = (tile_bounds z x y).max_x ∧
    (tile_bounds z x (y + 1)).max_y = (tile_bounds z x y).min_y := by
  have h2z : (0 : ℚ) < 2 ^ z := by positivity
  have hOS := origin_shift_pos
  have hspan256 : resolution_for_zoom z * (256 : ℚ) = 2 * ORIGIN_SHIFT / 2 ^ z := by
    have h := resolution_mul_tile z
    norm_num [TILE_SIZE] at h
    exact h
  have hx1 : ((x : ℚ) + 1) ≤ 2 ^ z := by
    have h : (x : ℚ) + 1 ≤ ((2 ^ z : ℕ) : ℚ) := by exact_mod_cast hx
    simpa using h
  have htms0 : (0 : ℤ) ≤ ((2 : ℤ) ^ z - 1) - (y : ℤ) := by
    have h : (y : ℤ) < (2 : ℤ) ^ z := by exact_mod_cast hy
    omega
  have htms0q : (0 : ℚ) ≤ ((((2 : ℤ) ^ z - 1) - (y : ℤ) : ℤ) : ℚ) := by
    exact_mod_cast htms0
  have htms1q : (((((2 : ℤ) ^ z - 1) - (y : ℤ) : ℤ) : ℚ) + 1) ≤ 2 ^ z := by
    have h : (((2 : ℤ) ^ z - 1) - (y : ℤ)) + 1 ≤ (2 : ℤ) ^ z := by omega
    calc ((((2 : ℤ) ^ z - 1) - (y : ℤ) : ℤ) : ℚ) + 1
        = (((((2 : ℤ) ^ z - 1) - (y : ℤ)) + 1 : ℤ) : ℚ) := by push_cast; ring
      _ ≤ (((2 : ℤ) ^ z : ℤ) : ℚ) := by exact_mod_cast h
      _ = 2 ^ z := by push_cast; ring
  have key : ∀ a : ℚ, 0 ≤ a → a ≤ 2 ^ z →
      -ORIGIN_SHIFT ≤ -ORIGIN_SHIFT + a * (2 * ORIGIN_SHIFT / 2 ^ z) ∧
      -ORIGIN_SHIFT + a * (2 * ORIGIN_SHIFT / 2 ^ z) ≤ ORIGIN_SHIFT := by
    intro a h0 h1
    constructor
    · have h2 : 0 ≤ a * (2 * ORIGIN_SHIFT / 2 ^ z) := by positivity
      linarith
    · have hstep : a * (2 * ORIGIN_SHIFT / 2 ^ z) ≤ 2 ^ z * (2 * ORIGIN_SHIFT / 2 ^ z) := by
        apply mul_le_mul_of_nonneg_right h1
        positivity
      have heq : (2 : ℚ) ^ z * (2 * ORIGIN_SHIFT / 2 ^ z) = 2 * ORIGIN_SHIFT := by
        field_simp
      rw [heq] at hstep
      linarith
  have hposspan : (0 : ℚ) < 2 * ORIGIN_SHIFT / 2 ^ z := by positivity
  refine ⟨?_, ?_, ?_, ?_, ?_, ?_, ?_, ?_, ?_, ?_, ?_, ?_⟩
  · simp only [tile_bounds, TILE_SIZE]; push_cast; ring
  · simp only [tile_bounds, TILE_SIZE]; push_cast; ring
  · simp only [tile_bounds, TILE_SIZE]; push_cast; ring
  · simp only [tile_bounds, TILE_SIZE]; push_cast; ring
  · simp only [tile_bounds, TILE_SIZE]
    push_cast
    rw [hspan256]
    exact (key (x : ℚ) (by positivity) (by linarith)).1
  · simp only [tile_bounds, TILE_SIZE]
    push_cast
    rw [hspan256]
    nlinarith [hposspan]
  · simp only [tile_bounds, TILE_SIZE]
    push_cast
    rw [hspan256]
    exact (key ((x : ℚ) + 1) (by positivity) hx1).2
  · simp only [tile_bounds, TILE_SIZE]
    push_cast
    rw [hspan256]
    have h := (key ((((2 : ℤ) ^ z - 1) - (y : ℤ) : ℤ) : ℚ) htms0q (by linarith)).1
    push_cast at h ⊢
    convert h using 3
  · simp only [tile_bounds, TILE_SIZE]
    push_cast
    rw [hspan256]
    nlinarith [hposspan]
  · simp only [tile_bounds, TILE_SIZE]
    push_cast
    rw [hspan256]
    have h := (key (((((2 : ℤ) ^ z - 1) - (y : ℤ) : ℤ) : ℚ) + 1) (by linarith) htms1q).2
    push_cast at h ⊢
    convert h using 3
  · simp only [tile_bounds, TILE_SIZE]; push_cast; ring
  · simp only [tile_bounds, TILE_SIZE]; push_cast; ring

theorem tile_extent_geometry_witness :
    -ORIGIN_SHIFT ≤ (tile_bounds 1 0 0).min_x :=
  (tile_extent_geometry 1 0 0 (by norm_num) (by norm_num)).2.2.2.2.1

/-! ## manifest.c: tile manifest -/

/-- Embedding of `pack_tile` (manifest.c): `((uint32_t)x << 16) | (uint32_t)y`
on 32-bit unsigned arithmetic. -/
def pack_tile (x y : ℕ) : ℕ := ((x <<< 16) % 2 ^ 32) ||| (y % 2 ^ 32)

/-- The clamp applied at the end of `get_tile_at_zoom`: force the index
into `[0, n-1]`. -/
def clamp_tile (v n : ℤ) : ℤ :=
  if v < 0 then 0 else if v ≥ n then n - 1 else v

/-- Embedding of `get_tile_at_zoom` (manifest.c). `mercY lat` abstracts the
transcendental `asinh(tan(lat * pi / 180)) / pi`; the C `(int)` casts
truncate toward zero, and the results are clamped into `[0, 2^zoom - 1]`. -/
def get_tile_at_zoom (mercY : ℚ → ℚ) (lon lat : ℚ) (zoom : ℕ) : ℕ × ℕ :=
  let n : ℤ := 2 ^ zoom
  let x : ℤ := ctrunc ((lon + 180) / 360 * (n : ℚ))
  let y : ℤ := ctrunc ((1 - mercY lat) / 2 * (n : ℚ))
  ((clamp_tile x n).toNat, (clamp_tile y n).toNat)

/-- Inclusive integer range `[lo, hi]` as a list (empty when `hi < lo`),
the index set of a C `for (v = lo; v <= hi; v++)` loop. -/
def range_incl (lo hi : ℕ) : List ℕ :=
  (List.range (hi + 1 - lo)).map (fun i => lo + i)

/-- The tiles appended by the nested rectangle loop of
`add_tiles_for_bounds`: every (x,y) with `x_min ≤ x ≤ x_max` and
`y_min ≤ y ≤ y_max`, packed. The C code appends them to the zoom set; the
embedding returns the appended delta. -/
def tiles_for_rect (mercY : ℚ → ℚ) (lon_min lat_min lon_max lat_max : ℚ)
    (zoom : ℕ) : List ℕ :=
  let p1 := get_tile_at_zoom mercY lon_min lat_min zoom
  let p2 := get_tile_at_zoom mercY lon_max lat_max zoom
  ((range_incl p1.1 p2.1).map
    (fun x => (range_incl p2.2 p1.2).map (fun yy => pack_tile x yy))).flatten

/-- One-sided clamp `if (lon_min < -180) lon_min = -180`. -/
def clamp_lon_min (q : ℚ) : ℚ := if q < -180 then -180 else q

/-- One-sided clamp `if (lon_max > 180) lon_max = 180`. -/
def clamp_lon_max (q : ℚ) : ℚ := if q > 180 then 180 else q

/-- One-sided clamp `if (lat_min < -85) lat_min = -85`. -/
def clamp_lat_min (q : ℚ) : ℚ := if q < -85 then -85 else q

/-- One-sided clamp `if (lat_max > 85) lat_max = 85`. -/
def clamp_lat_max (q : ℚ) : ℚ := if q > 85 then 85 else q

/-- Embedding of `add_tiles_for_bounds` (manifest.c): one-sided clamps of
the box to lon ±180 / lat ±85, then either the plain rectangle loop or,
when `lon_min > lon_max` (antimeridian crossing), a split into the two
ranges `[lon_min, 180]` and `[-180, lon_max]` by recursion on the clamped
values. The C recursion does not terminate when `lon_min > 180` or
`lon_max < -180`, so the embedding carries fuel and returns `none` in
that case. -/
def add_tiles_for_bounds (mercY : ℚ → ℚ) :
    ℕ → ℚ → ℚ → ℚ → ℚ → ℕ → Option (List ℕ)
  | 0, _, _, _, _, _ => none
  | fuel + 1, lon_min, lat_min, lon_max, lat_max, zoom =>
    if clamp_lon_min lon_min > clamp_lon_max lon_max then
      match add_tiles_for_bounds mercY fuel (clamp_lon_min lon_min)
          (clamp_lat_min lat_min) 180 (clamp_lat_max lat_max) zoom with
      | none => none
      | some l1 =>
        (add_tiles_for_bounds mercY fuel (-180) (clamp_lat_min lat_min)
            (clamp_lon_max lon_max) (clamp_lat_max lat_max) zoom).map
          (fun l2 => l1 ++ l2)
    else
      some (tiles_for_rect mercY (clamp_lon_min lon_min) (clamp_lat_min lat_min)
        (clamp_lon_max lon_max) (clamp_lat_max lat_max) zoom)

/-- Fuel that suffices for every terminating execution of the C recursion
(depth ≤ 2 once the longitudes are in range). -/
def BOUNDS_FUEL : ℕ := 4

/-- A dataset as seen by manifest.c and vrt.c: `max_lod` from the config;
`bounds` is the WGS-84 box read by `bounds_from_tif` from the reprojected
temp GeoTIFF (`none` when the file is missing or unreadable);
`tmp_exists` is the `stat` check on the same temp file used by
`build_zoom_vrt`. -/
structure DatasetM where
  max_lod : ℤ
  bounds : Option (ℚ × ℚ × ℚ × ℚ)
  tmp_exists : Bool
  deriving DecidableEq, Repr

/-- A tileset as seen by manifest.c and vrt.c. A `none` entry of
`datasets` stands for a name on which `get_dataset` returned NULL. -/
structure TilesetM where
  zoom_min : ℕ
  zoom_max : ℕ
  datasets : List (Option DatasetM)
  deriving DecidableEq, Repr

/-- The clamp `ds_max_zoom` computed in `build_tile_manifest`: the
dataset's `max_lod` clamped first from above to `zoom_max`, then from
below to `zoom_min`. -/
def ds_max_zoom (ts : TilesetM) (d : DatasetM) : ℤ :=
  let z1 := if d.max_lod > (ts.zoom_max : ℤ) then (ts.zoom_max : ℤ) else d.max_lod
  if z1 < (ts.zoom_min : ℤ) then (ts.zoom_min : ℤ) else z1

/-- Append `delta` to the i-th entry of the per-zoom tile lists (the
`add_tile` appends into `m->zooms[z - m->min_zoom]`). -/
def update_level : List (List ℕ) → ℕ → List ℕ → List (List ℕ)
  | [], _, _ => []
  | l :: ls, 0, delta => (l ++ delta) :: ls
  | l :: ls, i + 1, delta => l :: update_level ls i delta

/-- The `for (z = min_zoom; z <= ds_max_zoom; z++)` loop of
`build_tile_manifest`, appending one dataset's covering tiles to each
level; `i` is the level index `z - min_zoom` and `r` the number of zooms
still to process. -/
def add_zoom_loop (mercY : ℚ → ℚ) (lon_min lat_min lon_max lat_max : ℚ)
    (zoom_min : ℕ) : ℕ → ℕ → List (List ℕ) → Option (List (List ℕ))
  | _, 0, levels => some levels
  | i, r + 1, levels =>
    match add_tiles_for_bounds mercY BOUNDS_FUEL lon_min lat_min lon_max lat_max
        (zoom_min + i) with
    | none => none
    | some delta => add_zoom_loop mercY lon_min lat_min lon_max lat_max zoom_min
        (i + 1) r (update_level levels i delta)

/-- One dataset's contribution in `build_tile_manifest`: skip when the
reprojected TIF cannot be read, otherwise add its tiles to every zoom
level from `zoom_min` to `ds_max_zoom`. -/
def add_dataset_tiles (mercY : ℚ → ℚ) (ts : TilesetM) (d : DatasetM)
    (levels : List (List ℕ)) : Option (List (List ℕ)) :=
  match d.bounds with
  | none => some levels
  | some (lon_min, lat_min, lon_max, lat_max) =>
    add_zoom_loop mercY lon_min lat_min lon_max lat_max ts.zoom_min 0
      (ds_max_zoom ts d - ts.zoom_min + 1).toNat levels

/-- The dataset loop of `build_tile_manifest`: unknown dataset names are
skipped; a failing tile addition aborts the build. -/
def build_levels (mercY : ℚ → ℚ) (ts : TilesetM) :
    List (Option DatasetM) → List (List ℕ) → Option (List (List ℕ))
  | [], levels => some levels
  | none :: rest, levels => build_levels mercY ts rest levels
  | some d :: rest, levels =>
    match add_dataset_tiles mercY ts d levels with
    | none => none
    | some levels2 => build_levels mercY ts rest levels2

/-- Adjacent-duplicate removal loop of `finalize_zoom`: keep an element
iff it differs from the last kept one. -/
def dedupe_run (last : ℕ) : List ℕ → List ℕ
  | [] => []
  | a :: l => if a ≠ last then a :: dedupe_run a l else dedupe_run last l

/-- Embedding of `finalize_zoom` (manifest.c): qsort ascending under
`compare_tiles` followed by the dedupe loop. `compare_tiles` is a total
order on the key values and two keys compare equal only when they are the
same value, so every comparator-respecting qsort output is the unique
ascending permutation; the model computes it with an insertion sort. -/
def finalize_zoom (l : List ℕ) : List ℕ :=
  match List.insertionSort (· ≤ ·) l with
  | [] => []
  | a :: rest => a :: dedupe_run a rest

/-- The manifest structure of manifest.h: per-zoom sorted packed-tile
lists, indexed by `zoom - min_zoom`. -/
structure TileManifestM where
  min_zoom : ℕ
  max_zoom : ℕ
  zooms : List (List ℕ)
  deriving DecidableEq, Repr

/-- Embedding of `build_tile_manifest` (manifest.c). -/
def build_tile_manifest (mercY : ℚ → ℚ) (ts : TilesetM) : Option TileManifestM :=
  let zoom_count := ts.zoom_max - ts.zoom_min + 1
  (build_levels mercY ts ts.datasets (List.replicate zoom_count [])).map
    (fun levels =>
      { min_zoom := ts.zoom_min
        max_zoom := ts.zoom_max
        zooms := levels.map finalize_zoom })

/-- Index-based binary search on `[lo, hi)`, the behaviour of libc
`bsearch` with comparator `compare_tiles` on the packed keys. The first
argument is fuel bounding the number of iterations; the interval shrinks
by at least one element per iteration, so `hi - lo` iterations always
suffice and libc bsearch always terminates. -/
def bsearch_go (l : List ℕ) (target : ℕ) : ℕ → ℕ → ℕ → Bool
  | 0, _, _ => false
  | fuel + 1, lo, hi =>
    if lo < hi then
      if target < l.getD ((lo + hi) / 2) 0 then
        bsearch_go l target fuel lo ((lo + hi) / 2)
      else if l.getD ((lo + hi) / 2) 0 < target then
        bsearch_go l target fuel ((lo + hi) / 2 + 1) hi
      else true
    else false

/-- Binary search over the whole array. -/
def bsearch_list (l : List ℕ) (t : ℕ) : Bool :=
  bsearch_go l t l.length 0 l.length

/-- Embedding of `manifest_contains` (manifest.c): a NULL manifest means
"generate all tiles"; out-of-range zooms and empty levels answer false;
otherwise binary search for the packed key. -/
def manifest_contains : Option TileManifestM → ℤ → ℕ → ℕ → Bool
  | none, _, _, _ => true
  | some mm, z, x, y =>
    if z < (mm.min_zoom : ℤ) ∨ z > (mm.max_zoom : ℤ) then false
    else if (mm.zooms.getD (z - (mm.min_zoom : ℤ)).toNat []).length = 0 then false
    else bsearch_list (mm.zooms.getD (z - (mm.min_zoom : ℤ)).toNat [])
      (pack_tile x y)

/-- Embedding of `manifest_tile_count` (manifest.c): 0 for NULL, else the
sum of the per-zoom counts. -/
def manifest_tile_count (m : Option TileManifestM) : ℕ :=
  match m with
  | none => 0
  | some mm =>
    ((List.range (mm.max_zoom + 1 - mm.min_zoom)).map
      (fun i => (mm.zooms.getD i []).length)).sum

/-! ### Supporting lemmas for the manifest proofs -/

theorem update_level_length (ls : List (List ℕ)) (i : ℕ) (d : List ℕ) :
    (update_level ls i d).length = ls.length := by
  induction ls generalizing i with
  | nil => rfl
  | cons l ls ih =>
    cases i with
    | zero => rfl
    | succ j => simpa [update_level] using ih j

theorem getD_update_level (ls : List (List ℕ)) (i j : ℕ) (d : List ℕ)
    (hi : i < ls.length) :
    (update_level ls i d).getD j [] =
      if j = i then ls.getD j [] ++ d else ls.getD j [] := by
  induction ls generalizing i j with
  | nil => simp at hi
  | cons l ls ih =>
    cases i with
    | zero =>
      cases j with
      | zero => simp [update_level]
      | succ je => simp [update_level]
    | succ ie =>
      cases j with
      | zero => simp [update_level]
      | succ je =>
        have h2 : ie < ls.length := by simpa using hi
        simp only [update_level, List.getD_cons_succ]
        rw [ih ie je h2]
        by_cases hji : je = ie
        · simp [hji]
        · have hji2 : ¬(je + 1 = ie + 1) := by omega
          simp [hji, hji2]

theorem mem_range_incl {x lo hi : ℕ} : x ∈ range_incl lo hi ↔ lo ≤ x ∧ x ≤ hi := by
  simp only [range_incl, List.mem_map, List.mem_range]
  constructor
  · rintro ⟨i, hilt, rfl⟩
    omega
  · rintro ⟨h1, h2⟩
    exact ⟨x - lo, by omega, by omega⟩

theorem get_tile_at_zoom_lt (mercY : ℚ → ℚ) (lon lat : ℚ) (zoom : ℕ) :
    (get_tile_at_zoom mercY lon lat zoom).1 < 2 ^ zoom ∧
    (get_tile_at_zoom mercY lon lat zoom).2 < 2 ^ zoom := by
  have hcast : ((2 ^ zoom : ℕ) : ℤ) = (2 : ℤ) ^ zoom := by push_cast; ring
  have hpos : (0 : ℤ) < (2 : ℤ) ^ zoom := by positivity
  unfold get_tile_at_zoom clamp_tile
  constructor <;>
  · dsimp only
    split <;> [skip; split] <;> omega

theorem mem_tiles_for_rect_range {mercY : ℚ → ℚ}
    {lon_min lat_min lon_max lat_max : ℚ} {zoom : ℕ} {p : ℕ}
    (h : p ∈ tiles_for_rect mercY lon_min lat_min lon_max lat_max zoom) :
    ∃ x y, x < 2 ^ zoom ∧ y < 2 ^ zoom ∧ p = pack_tile x y := by
  unfold tiles_for_rect at h
  rw [List.mem_flatten] at h
  obtain ⟨inner, hinner, hp⟩ := h
  rw [List.mem_map] at hinner
  obtain ⟨x, hx, rfl⟩ := hinner
  rw [List.mem_map] at hp
  obtain ⟨y, hy, rfl⟩ := hp
  rw [mem_range_incl] at hx hy
  refine ⟨x, y, ?_, ?_, rfl⟩
  · exact lt_of_le_of_lt hx.2 (get_tile_at_zoom_lt mercY lon_max lat_max zoom).1
  · exact lt_of_le_of_lt hy.2 (get_tile_at_zoom_lt mercY lon_min lat_min zoom).2

theorem add_tiles_for_bounds_range {mercY : ℚ → ℚ} :
    ∀ {fuel : ℕ} {a b c d : ℚ} {zoom : ℕ} {l : List ℕ},
    add_tiles_for_bounds mercY fuel a b c d zoom = some l →
    ∀ p ∈ l, ∃ x y, x < 2 ^ zoom ∧ y < 2 ^ zoom ∧ p = pack_tile x y := by
  intro fuel
  induction fuel with
  | zero => intro a b c d zoom l h; exact absurd h (by simp [add_tiles_for_bounds])
  | succ fuel ih =>
    intro a b c d zoom l h p hp
    rw [add_tiles_for_bounds] at h
    split at h
    · cases h1 : add_tiles_for_bounds mercY fuel (clamp_lon_min a)
          (clamp_lat_min b) 180 (clamp_lat_max d) zoom with
      | none => rw [h1] at h; exact absurd h (by simp)
      | some l1 =>
        rw [h1] at h
        cases h2 : add_tiles_for_bounds mercY fuel (-180) (clamp_lat_min b)
            (clamp_lon_max c) (clamp_lat_max d) zoom with
        | none => rw [h2] at h; exact absurd h (by simp)
        | some l2 =>
          rw [h2] at h
          simp only [Option.map_some] at h
          obtain rfl : l1 ++ l2 = l := by injection h
          rcases List.mem_append.mp hp with hp1 | hp2
          · exact ih h1 p hp1
          · exact ih h2 p hp2
    · obtain rfl : tiles_for_rect mercY (clamp_lon_min a) (clamp_lat_min b)
          (clamp_lon_max c) (clamp_lat_max d) zoom = l := by injection h
      exact mem_tiles_for_rect_range hp

theorem bsearch_go_sound (l : List ℕ) (t : ℕ) :
    ∀ n lo hi, hi ≤ l.length →
      bsearch_go l t n lo hi = true → t ∈ l := by
  intro n
  induction n with
  | zero =>
    intro lo hi h2 h3
    rw [bsearch_go] at h3
    exact absurd h3 (by simp)
  | succ n ih =>
    intro lo hi h2 h3
    rw [bsearch_go] at h3
    split at h3
    case isTrue hlt =>
      by_cases hc1 : t < l.getD ((lo + hi) / 2) 0
      · rw [if_pos hc1] at h3
        exact ih lo ((lo + hi) / 2) (by omega) h3
      · rw [if_neg hc1] at h3
        by_cases hc2 : l.getD ((lo + hi) / 2) 0 < t
        · rw [if_pos hc2] at h3
          exact ih ((lo + hi) / 2 + 1) hi h2 h3
        · have hmid : (lo + hi) / 2 < l.length := by omega
          have ht : t = l.getD ((lo + hi) / 2) 0 := by omega
          rw [ht, List.getD_eq_getElem l 0 hmid]
          exact List.getElem_mem hmid
    case isFalse h => exact absurd h3 (by simp)

theorem bsearch_go_complete (l : List ℕ) (t : ℕ)
    (hs : List.Pairwise (· ≤ ·) l) :
    ∀ n lo hi, hi - lo ≤ n → hi ≤ l.length →
      (∃ i, lo ≤ i ∧ i < hi ∧ ∃ h : i < l.length, l[i] = t) →
      bsearch_go l t n lo hi = true := by
  have hmono : ∀ i j (hi2 : i < l.length) (hj : j < l.length),
      i ≤ j → l[i] ≤ l[j] := by
    intro i j hi2 hj hij
    rcases Nat.eq_or_lt_of_le hij with heq | hlt
    · subst heq; exact le_refl _
    · have hg := List.pairwise_iff_get.mp hs ⟨i, hi2⟩ ⟨j, hj⟩ hlt
      simpa using hg
  intro n
  induction n with
  | zero =>
    rintro lo hi h1 h2 ⟨i, hi1, hi2, _⟩
    omega
  | succ n ih =>
    rintro lo hi h1 h2 ⟨i, hli, hih, hilen, hit⟩
    have hlohi : lo < hi := by omega
    have hmidlen : (lo + hi) / 2 < l.length := by omega
    have hvd : l.getD ((lo + hi) / 2) 0 = l[(lo + hi) / 2] :=
      List.getD_eq_getElem l 0 hmidlen
    rw [bsearch_go, if_pos hlohi]
    by_cases hc1 : t < l.getD ((lo + hi) / 2) 0
    · rw [if_pos hc1]
      apply ih lo ((lo + hi) / 2) (by omega) (by omega)
      refine ⟨i, hli, ?_, hilen, hit⟩
      by_contra hge
      have hle : l[(lo + hi) / 2] ≤ l[i] := hmono _ i hmidlen hilen (by omega)
      rw [hit] at hle
      rw [hvd] at hc1
      omega
    · rw [if_neg hc1]
      by_cases hc2 : l.getD ((lo + hi) / 2) 0 < t
      · rw [if_pos hc2]
        apply ih ((lo + hi) / 2 + 1) hi (by omega) h2
        refine ⟨i, ?_, hih, hilen, hit⟩
        by_contra hlt2
        have hle : l[i] ≤ l[(lo + hi) / 2] := hmono i _ hilen hmidlen (by omega)
        rw [hit] at hle
        rw [hvd] at hc2
        omega
      · rw [if_neg hc2]

theorem bsearch_list_iff (l : List ℕ) (t : ℕ)
    (hs : List.Pairwise (· ≤ ·) l) :
    bsearch_list l t = true ↔ t ∈ l := by
  constructor
  · intro h
    exact bsearch_go_sound l t l.length 0 l.length (le_refl _) h
  · intro h
    obtain ⟨i, hlen, hit⟩ := List.mem_iff_getElem.mp h
    exact bsearch_go_complete l t hs l.length 0 l.length (by omega) (le_refl _)
      ⟨i, by omega, hlen, hlen, hit⟩

theorem mem_of_mem_dedupe_run :
    ∀ (l : List ℕ) (last x : ℕ), x ∈ dedupe_run last l → x ∈ l := by
  intro l
  induction l with
  | nil => intro last x h; exact absurd h (by simp [dedupe_run])
  | cons a l ih =>
    intro last x h
    rw [dedupe_run] at h
    by_cases hc : a ≠ last
    · rw [if_pos hc] at h
      rcases List.mem_cons.mp h with heq | h2
      · exact heq ▸ List.mem_cons_self a l
      · exact List.mem_cons_of_mem _ (ih a x h2)
    · rw [if_neg hc] at h
      exact List.mem_cons_of_mem _ (ih last x h)

theorem mem_dedupe_run_of_mem :
    ∀ (l : List ℕ) (last x : ℕ), x ∈ l → x = last ∨ x ∈ dedupe_run last l := by
  intro l
  induction l with
  | nil => intro last x h; exact absurd h (by simp)
  | cons a l ih =>
    intro last x h
    rw [dedupe_run]
    by_cases hc : a ≠ last
    · rw [if_pos hc]
      rcases List.mem_cons.mp h with heq | h2
      · right; exact heq ▸ List.mem_cons_self a _
      · rcases ih a x h2 with heq | h3
        · right; exact heq ▸ List.mem_cons_self a _
        · right; exact List.mem_cons_of_mem _ h3
    · rw [if_neg hc]
      push_neg at hc
      rcases List.mem_cons.mp h with heq | h2
      · left; omega
      · exact ih last x h2

theorem chain_lt_dedupe_run :
    ∀ (l : List ℕ) (last : ℕ), List.Chain' (· ≤ ·) (last :: l) →
      List.Chain' (· < ·) (last :: dedupe_run last l) := by
  intro l
  induction l with
  | nil => intro last h; simp [dedupe_run]
  | cons a l ih =>
    intro last h
    rw [dedupe_run]
    have h1 : last ≤ a := (List.chain'_cons.mp h).1
    have h2 : List.Chain' (· ≤ ·) (a :: l) := (List.chain'_cons.mp h).2
    by_cases hc : a ≠ last
    · rw [if_pos hc]
      rw [List.chain'_cons]
      exact ⟨lt_of_le_of_ne h1 (Ne.symm hc), ih a h2⟩
    · rw [if_neg hc]
      push_neg at hc
      subst hc
      exact ih a h2

theorem mem_finalize_zoom {x : ℕ} {l : List ℕ} :
    x ∈ finalize_zoom l ↔ x ∈ l := by
  have hperm := List.perm_insertionSort (· ≤ ·) l
  unfold finalize_zoom
  cases hms : List.insertionSort (· ≤ ·) l with
  | nil =>
    rw [hms] at hperm
    have hl : l = [] := hperm.symm.eq_nil
    subst hl
    simp
  | cons a rest =>
    rw [hms] at hperm
    constructor
    · intro h
      rcases List.mem_cons.mp h with heq | h2
      · exact hperm.mem_iff.mp (heq ▸ List.mem_cons_self a rest)
      · exact hperm.mem_iff.mp
          (List.mem_cons_of_mem _ (mem_of_mem_dedupe_run rest a x h2))
    · intro h
      have h2 : x ∈ a :: rest := hperm.mem_iff.mpr h
      rcases List.mem_cons.mp h2 with heq | h3
      · exact heq ▸ List.mem_cons_self a _
      · rcases mem_dedupe_run_of_mem rest a x h3 with heq | h4
        · exact heq ▸ List.mem_cons_self a _
        · exact List.mem_cons_of_mem _ h4

theorem pairwise_finalize_zoom (l : List ℕ) :
    List.Pairwise (· < ·) (finalize_zoom l) := by
  have hsorted : List.Pairwise (· ≤ ·) (List.insertionSort (· ≤ ·) l) :=
    List.sorted_insertionSort (· ≤ ·) l
  unfold finalize_zoom
  cases hms : List.insertionSort (· ≤ ·) l with
  | nil => simp
  | cons a rest =>
    rw [hms] at hsorted
    rw [← List.chain'_iff_pairwise]
    apply chain_lt_dedupe_run
    rw [List.chain'_iff_pairwise]
    exact hsorted

theorem getD_replicate_nil (n j : ℕ) :
    (List.replicate n ([] : List ℕ)).getD j [] = [] := by
  by_cases h : j < n
  · rw [List.getD_eq_getElem _ _ (by simpa using h)]
    simp
  · rw [List.getD_eq_default _ _ (by simpa using h)]

theorem getD_map_finalize (ls : List (List ℕ)) (i : ℕ) (hi : i < ls.length) :
    (ls.map finalize_zoom).getD i [] = finalize_zoom (ls.getD i []) := by
  rw [List.getD_eq_getElem _ _ (by simpa using hi), List.getD_eq_getElem _ _ hi,
    List.getElem_map]

theorem ds_max_zoom_ge (ts : TilesetM) (d : DatasetM) :
    (ts.zoom_min : ℤ) ≤ ds_max_zoom ts d := by
  simp only [ds_max_zoom]
  split <;> split <;> omega

theorem ds_count_le (ts : TilesetM) (d : DatasetM)
    (hzz : ts.zoom_min ≤ ts.zoom_max) :
    (ds_max_zoom ts d - ts.zoom_min + 1).toNat ≤ ts.zoom_max - ts.zoom_min + 1 := by
  have hc : ((ts.zoom_min : ℤ)) ≤ (ts.zoom_max : ℤ) := by exact_mod_cast hzz
  simp only [ds_max_zoom]
  split <;> split <;> omega

theorem add_zoom_loop_spec (mercY : ℚ → ℚ) (lm am lx ax : ℚ) (zmin : ℕ) :
    ∀ (r i : ℕ) (levels levels' : List (List ℕ)), i + r ≤ levels.length →
    add_zoom_loop mercY lm am lx ax zmin i r levels = some levels' →
    levels'.length = levels.length ∧
    ∀ j p, p ∈ levels'.getD j [] ↔
      (p ∈ levels.getD j [] ∨
       (i ≤ j ∧ j < i + r ∧
        ∃ delta, add_tiles_for_bounds mercY BOUNDS_FUEL lm am lx ax (zmin + j)
            = some delta ∧ p ∈ delta)) := by
  intro r
  induction r with
  | zero =>
    intro i levels levels' hlen h
    rw [add_zoom_loop] at h
    obtain rfl : levels = levels' := by injection h
    refine ⟨rfl, fun j p => ?_⟩
    constructor
    · exact Or.inl
    · rintro (hm | ⟨h1, h2, _⟩)
      · exact hm
      · omega
  | succ r ih =>
    intro i levels levels' hlen h
    rw [add_zoom_loop] at h
    cases hd : add_tiles_for_bounds mercY BOUNDS_FUEL lm am lx ax (zmin + i) with
    | none => rw [hd] at h; exact absurd h (by simp)
    | some delta =>
      rw [hd] at h
      have hlen2 : (i + 1) + r ≤ (update_level levels i delta).length := by
        rw [update_level_length]; omega
      obtain ⟨hl, hiff⟩ := ih (i + 1) (update_level levels i delta) levels' hlen2 h
      refine ⟨by rw [hl, update_level_length], fun j p => ?_⟩
      rw [hiff j p, getD_update_level levels i j delta (by omega)]
      by_cases hji : j = i
      · subst hji
        rw [if_pos rfl]
        constructor
        · rintro (hmem | ⟨h1, h2, hrest⟩)
          · rcases List.mem_append.mp hmem with hm | hm
            · exact Or.inl hm
            · exact Or.inr ⟨le_refl j, by omega, delta, hd, hm⟩
          · omega
        · rintro (hmem | ⟨h1, h2, dd, hdd, hm⟩)
          · exact Or.inl (List.mem_append.mpr (Or.inl hmem))
          · rw [hd] at hdd
            obtain rfl : delta = dd := by injection hdd
            exact Or.inl (List.mem_append.mpr (Or.inr hm))
      · rw [if_neg hji]
        constructor
        · rintro (hmem | ⟨h1, h2, hrest⟩)
          · exact Or.inl hmem
          · exact Or.inr ⟨by omega, by omega, hrest⟩
        · rintro (hmem | ⟨h1, h2, hrest⟩)
          · exact Or.inl hmem
          · exact Or.inr ⟨by omega, by omega, hrest⟩

theorem add_dataset_tiles_spec (mercY : ℚ → ℚ) (ts : TilesetM) (d : DatasetM)
    (levels levels' : List (List ℕ))
    (hcnt : (ds_max_zoom ts d - ts.zoom_min + 1).toNat ≤ levels.length)
    (h : add_dataset_tiles mercY ts d levels = some levels') :
    levels'.length = levels.length ∧
    ∀ j p, p ∈ levels'.getD j [] ↔
      (p ∈ levels.getD j [] ∨
       ∃ bb, d.bounds = some bb ∧
         j < (ds_max_zoom ts d - ts.zoom_min + 1).toNat ∧
         ∃ delta, add_tiles_for_bounds mercY BOUNDS_FUEL bb.1 bb.2.1 bb.2.2.1
             bb.2.2.2 (ts.zoom_min + j) = some delta ∧ p ∈ delta) := by
  unfold add_dataset_tiles at h
  cases hbs : d.bounds with
  | none =>
    rw [hbs] at h
    obtain rfl : levels = levels' := by injection h
    refine ⟨rfl, fun j p => ?_⟩
    constructor
    · exact Or.inl
    · rintro (hm | ⟨bb, hbb, _⟩)
      · exact hm
      · cases hbb
  | some bb =>
    obtain ⟨lm, am, lx, ax⟩ := bb
    rw [hbs] at h
    obtain ⟨hl, hiff⟩ := add_zoom_loop_spec mercY lm am lx ax ts.zoom_min
      (ds_max_zoom ts d - ts.zoom_min + 1).toNat 0 levels levels' (by omega) h
    refine ⟨hl, fun j p => ?_⟩
    rw [hiff j p]
    constructor
    · rintro (hm | ⟨_, h2, hdel⟩)
      · exact Or.inl hm
      · exact Or.inr ⟨(lm, am, lx, ax), rfl, by omega, hdel⟩
    · rintro (hm | ⟨bb2, hbb2, hj, hdel⟩)
      · exact Or.inl hm
      · obtain rfl : (lm, am, lx, ax) = bb2 := by injection hbb2
        exact Or.inr ⟨by omega, by omega, hdel⟩

theorem build_levels_spec (mercY : ℚ → ℚ) (ts : TilesetM)
    (hzz : ts.zoom_min ≤ ts.zoom_max) :
    ∀ (ds : List (Option DatasetM)) (levels levels' : List (List ℕ)),
    levels.length = ts.zoom_max - ts.zoom_min + 1 →
    build_levels mercY ts ds levels = some levels' →
    levels'.length = levels.length ∧
    ∀ j p, p ∈ levels'.getD j [] ↔
      (p ∈ levels.getD j [] ∨
       ∃ dd, some dd ∈ ds ∧ ∃ bb, dd.bounds = some bb ∧
         j < (ds_max_zoom ts dd - ts.zoom_min + 1).toNat ∧
         ∃ delta, add_tiles_for_bounds mercY BOUNDS_FUEL bb.1 bb.2.1 bb.2.2.1
             bb.2.2.2 (ts.zoom_min + j) = some delta ∧ p ∈ delta) := by
  intro ds
  induction ds with
  | nil =>
    intro levels levels' hlen h
    rw [build_levels] at h
    obtain rfl : levels = levels' := by injection h
    refine ⟨rfl, fun j p => ?_⟩
    constructor
    · exact Or.inl
    · rintro (hm | ⟨dd, hdd, _⟩)
      · exact hm
      · exact absurd hdd (by simp)
  | cons od rest ih =>
    intro levels levels' hlen h
    cases od with
    | none =>
      rw [build_levels] at h
      obtain ⟨hl, hiff⟩ := ih levels levels' hlen h
      refine ⟨hl, fun j p => ?_⟩
      rw [hiff j p]
      constructor
      · rintro (hm | ⟨dd, hdd, hrest⟩)
        · exact Or.inl hm
        · exact Or.inr ⟨dd, List.mem_cons_of_mem _ hdd, hrest⟩
      · rintro (hm | ⟨dd, hdd, hrest⟩)
        · exact Or.inl hm
        · rcases List.mem_cons.mp hdd with heq | hmem
          · cases heq
          · exact Or.inr ⟨dd, hmem, hrest⟩
    | some d =>
      rw [build_levels] at h
      cases hd : add_dataset_tiles mercY ts d levels with
      | none => rw [hd] at h; exact absurd h (by simp)
      | some levels2 =>
        rw [hd] at h
        have hcnt : (ds_max_zoom ts d - ts.zoom_min + 1).toNat ≤ levels.length := by
          rw [hlen]; exact ds_count_le ts d hzz
        obtain ⟨hl2, hiff2⟩ := add_dataset_tiles_spec mercY ts d levels levels2 hcnt hd
        obtain ⟨hl, hiff⟩ := ih levels2 levels' (by rw [hl2, hlen]) h
        refine ⟨by rw [hl, hl2], fun j p => ?_⟩
        rw [hiff j p, hiff2 j p]
        constructor
        · rintro ((hm | ⟨bb, hbb, hj, hdel⟩) | ⟨dd, hdd, hrest⟩)
          · exact Or.inl hm
          · exact Or.inr ⟨d, List.mem_cons_self _ _, bb, hbb, hj, hdel⟩
          · exact Or.inr ⟨dd, List.mem_cons_of_mem _ hdd, hrest⟩
        · rintro (hm | ⟨dd, hdd, hrest⟩)
          · exact Or.inl (Or.inl hm)
          · rcases List.mem_cons.mp hdd with heq | hmem
            · obtain rfl : dd = d := by injection heq
              exact Or.inl (Or.inr hrest)
            · exact Or.inr ⟨dd, hmem, hrest⟩

/-- Master characterisation of `build_tile_manifest`: the manifest echoes
the tileset zoom range, has one level per zoom, every level is strictly
sorted, and a packed key sits in level j exactly when some known dataset
with readable bounds and `zoom_min + j ≤ ds_max_zoom` enumerates it. -/
theorem build_manifest_spec (mercY : ℚ → ℚ) (ts : TilesetM) (m : TileManifestM)
    (hzz : ts.zoom_min ≤ ts.zoom_max)
    (hb : build_tile_manifest mercY ts = some m) :
    m.min_zoom = ts.zoom_min ∧ m.max_zoom = ts.zoom_max ∧
    m.zooms.length = ts.zoom_max - ts.zoom_min + 1 ∧
    (∀ level ∈ m.zooms, List.Pairwise (· < ·) level) ∧
    ∀ j p, p ∈ m.zooms.getD j [] ↔
      (j < ts.zoom_max - ts.zoom_min + 1 ∧
       ∃ dd, some dd ∈ ts.datasets ∧ ∃ bb, dd.bounds = some bb ∧
         j < (ds_max_zoom ts dd - ts.zoom_min + 1).toNat ∧
         ∃ delta, add_tiles_for_bounds mercY BOUNDS_FUEL bb.1 bb.2.1 bb.2.2.1
             bb.2.2.2 (ts.zoom_min + j) = some delta ∧ p ∈ delta) := by
  unfold build_tile_manifest at hb
  rw [Option.map_eq_some'] at hb
  obtain ⟨levels, hbl, hm⟩ := hb
  obtain ⟨hl, hiff⟩ := build_levels_spec mercY ts hzz ts.datasets
    (List.replicate (ts.zoom_max - ts.zoom_min + 1) []) levels
    (List.length_replicate _ _) hbl
  subst hm
  rw [List.length_replicate] at hl
  refine ⟨rfl, rfl, by simpa using hl, ?_, ?_⟩
  · intro level hlevel
    rw [List.mem_map] at hlevel
    obtain ⟨pre, _, rfl⟩ := hlevel
    exact pairwise_finalize_zoom pre
  · intro j p
    by_cases hj : j < ts.zoom_max - ts.zoom_min + 1
    · rw [getD_map_finalize levels j (by rw [hl]; exact hj), mem_finalize_zoom,
        hiff j p, getD_replicate_nil]
      simp only [List.not_mem_nil, false_or]
      constructor
      · intro h; exact ⟨hj, h⟩
      · rintro ⟨_, h⟩; exact h
    · rw [List.getD_eq_default]
      · simp only [List.not_mem_nil, false_iff]
        rintro ⟨hj2, _⟩
        exact hj hj2
      · simp only [List.length_map]
        omega

/-- Correctness of the binary-search lookup `manifest_contains` against
list membership, for manifests with strictly sorted levels. -/
theorem manifest_contains_iff_mem (m : TileManifestM)
    (hsort : ∀ level ∈ m.zooms, List.Pairwise (· < ·) level)
    (z : ℤ) (x y : ℕ) :
    manifest_contains (some m) z x y = true ↔
      ((m.min_zoom : ℤ) ≤ z ∧ z ≤ (m.max_zoom : ℤ) ∧
       pack_tile x y ∈ m.zooms.getD (z - (m.min_zoom : ℤ)).toNat []) := by
  rw [manifest_contains]
  by_cases hz : z < (m.min_zoom : ℤ) ∨ z > (m.max_zoom : ℤ)
  · rw [if_pos hz]
    simp only [Bool.false_eq_true, false_iff]
    rintro ⟨h1, h2, _⟩
    omega
  · rw [if_neg hz]
    push_neg at hz
    by_cases hlen : (m.zooms.getD (z - (m.min_zoom : ℤ)).toNat []).length = 0
    · rw [if_pos hlen]
      simp only [Bool.false_eq_true, false_iff]
      rintro ⟨_, _, hmem⟩
      rw [List.length_eq_zero.mp hlen] at hmem
      exact absurd hmem (by simp)
    · rw [if_neg hlen]
      have hsorted : List.Pairwise (· ≤ ·)
          (m.zooms.getD (z - (m.min_zoom : ℤ)).toNat []) := by
        by_cases hidx : (z - (m.min_zoom : ℤ)).toNat < m.zooms.length
        · refine ((hsort _ ?_).imp le_of_lt)
          rw [List.getD_eq_getElem _ _ hidx]
          exact List.getElem_mem hidx
        · rw [List.getD_eq_default _ _ (by omega)]
          exact List.Pairwise.nil
      rw [bsearch_list_iff _ _ hsorted]
      constructor
      · intro hm
        exact ⟨hz.1, hz.2, hm⟩
      · rintro ⟨_, _, hm⟩
        exact hm

/-- Coverage of a tile key by one dataset: the reprojected GeoTIFF is
readable (`bounds = some _`) and the covering-tile enumeration of its
clamped, antimeridian-split WGS-84 extent at zoom z contains the packed
key of the tile. -/
def dataset_covers (mercY : ℚ → ℚ) (d : DatasetM) (z x y : ℕ) : Prop :=
  ∃ bb, d.bounds = some bb ∧
    ∃ delta, add_tiles_for_bounds mercY BOUNDS_FUEL bb.1 bb.2.1 bb.2.2.1 bb.2.2.2 z
        = some delta ∧ pack_tile x y ∈ delta

/-- C7: every manifest built by `build_tile_manifest` has strictly
increasing (sorted, duplicate-free) packed keys `(x<<16)|y` with
`0 ≤ x,y < 2^z` within each zoom level, and `manifest_contains` returns
true iff the key is an element of the level's array (false for z outside
`[min_zoom, max_zoom]`). -/
theorem manifest_data_structure_invariant (mercY : ℚ → ℚ) (ts : TilesetM)
    (m : TileManifestM) (hzz : ts.zoom_min ≤ ts.zoom_max)
    (hb : build_tile_manifest mercY ts = some m) :
    (∀ level ∈ m.zooms, List.Pairwise (· < ·) level) ∧
    (∀ z : ℕ, ts.zoom_min ≤ z → z ≤ ts.zoom_max →
      ∀ p ∈ m.zooms.getD (z - ts.zoom_min) [],
        ∃ x y, x < 2 ^ z ∧ y < 2 ^ z ∧ p = pack_tile x y) ∧
    (∀ z : ℤ, ∀ x y : ℕ,
      manifest_contains (some m) z x y = true ↔
        ((m.min_zoom : ℤ) ≤ z ∧ z ≤ (m.max_zoom : ℤ) ∧
         pack_tile x y ∈ m.zooms.getD (z - (m.min_zoom : ℤ)).toNat [])) := by
  obtain ⟨hmin, hmax, hlen, hsort, hmem⟩ := build_manifest_spec mercY ts m hzz hb
  refine ⟨hsort, ?_, fun z x y => manifest_contains_iff_mem m hsort z x y⟩
  intro z hz1 hz2 p hp
  obtain ⟨hjlt, dd, hdd, bb, hbb, hcnt, delta, hdelta, hpd⟩ :=
    (hmem (z - ts.zoom_min) p).mp hp
  have hz3 : ts.zoom_min + (z - ts.zoom_min) = z := by omega
  rw [hz3] at hdelta
  exact add_tiles_for_bounds_range hdelta p hpd

/-- Concrete tileset refuting C1 as stated: a single readable dataset with
`max_lod = 0`, inside a tileset with zoom range [2, 3]; its extent is the
single point (lon 0, lat 0). -/
def ts_lod0 : TilesetM :=
  { zoom_min := 2, zoom_max := 3,
    datasets :=
      [some { max_lod := 0, bounds := some (0, 0, 0, 0), tmp_exists := true }] }

/-- Concrete tileset exercising the amended C1 and C7 statements: a single
readable dataset with `max_lod = 5` in a tileset with zoom range [2, 3]. -/
def ts_lod5 : TilesetM :=
  { zoom_min := 2, zoom_max := 3,
    datasets :=
      [some { max_lod := 5, bounds := some (0, 0, 0, 0), tmp_exists := true }] }

/-- Unfolding equation for one iteration of the zoom loop. -/
theorem add_zoom_loop_succ (mercY : ℚ → ℚ) (lm am lx ax : ℚ) (zmin i r : ℕ)
    (levels : List (List ℕ)) :
    add_zoom_loop mercY lm am lx ax zmin i (r + 1) levels =
      match add_tiles_for_bounds mercY BOUNDS_FUEL lm am lx ax (zmin + i) with
      | none => none
      | some delta =>
          add_zoom_loop mercY lm am lx ax zmin (i + 1) r
            (update_level levels i delta) := rfl

set_option maxRecDepth 8000 in
theorem tiles_point_z2 :
    tiles_for_rect (fun _ => 0) (clamp_lon_min 0) (clamp_lat_min 0)
      (clamp_lon_max 0) (clamp_lat_max 0) 2 = [131074] := by
  with_unfolding_all decide

set_option maxRecDepth 8000 in
theorem tiles_point_z3 :
    tiles_for_rect (fun _ => 0) (clamp_lon_min 0) (clamp_lat_min 0)
      (clamp_lon_max 0) (clamp_lat_max 0) 3 = [262148] := by
  with_unfolding_all decide

theorem add_tiles_point_z2 :
    add_tiles_for_bounds (fun _ => 0) BOUNDS_FUEL 0 0 0 0 2 = some [131074] := by
  rw [← tiles_point_z2]; rfl

theorem add_tiles_point_z3 :
    add_tiles_for_bounds (fun _ => 0) BOUNDS_FUEL 0 0 0 0 3 = some [262148] := by
  rw [← tiles_point_z3]; rfl

/-- Concrete evaluation of `build_tile_manifest` on the `ts_lod0` tileset:
the `max_lod = 0` dataset is clamped up to `zoom_min`, so it contributes
its covering tile at level z = 2 only. -/
theorem build_ts_lod0_eq :
    build_tile_manifest (fun _ => 0) ts_lod0 =
      some (TileManifestM.mk 2 3 [[131074], []]) := by
  have eloop : add_zoom_loop (fun _ => 0) 0 0 0 0 2 0 1 [[], []] =
      some [[131074], []] := by
    rw [add_zoom_loop_succ, show ((2 : ℕ) + 0) = 2 from rfl, add_tiles_point_z2]
    rfl
  have ebl : build_levels (fun _ => 0) ts_lod0 ts_lod0.datasets
      (List.replicate (ts_lod0.zoom_max - ts_lod0.zoom_min + 1) []) =
      some [[131074], []] := by
    rw [show (List.replicate (ts_lod0.zoom_max - ts_lod0.zoom_min + 1)
        ([] : List ℕ)) = [[], []] from rfl]
    rw [show ts_lod0.datasets =
      [some { max_lod := 0, bounds := some (0, 0, 0, 0), tmp_exists := true }] from rfl]
    rw [build_levels]
    rw [show add_dataset_tiles (fun _ => 0) ts_lod0
        { max_lod := 0, bounds := some (0, 0, 0, 0), tmp_exists := true } [[], []] =
      add_zoom_loop (fun _ => 0) 0 0 0 0 2 0 1 [[], []] from rfl]
    rw [eloop]
    dsimp only
    rw [build_levels]
  simp only [build_tile_manifest]
  rw [ebl]
  rfl

/-- Concrete evaluation of `build_tile_manifest` on the `ts_lod5` tileset:
the dataset contributes its covering tile at both z = 2 and z = 3. -/
theorem build_ts_lod5_eq :
    build_tile_manifest (fun _ => 0) ts_lod5 =
      some (TileManifestM.mk 2 3 [[131074], [262148]]) := by
  have eloop : add_zoom_loop (fun _ => 0) 0 0 0 0 2 0 2 [[], []] =
      some [[131074], [262148]] := by
    rw [add_zoom_loop_succ, show ((2 : ℕ) + 0) = 2 from rfl, add_tiles_point_z2]
    dsimp only
    rw [add_zoom_loop_succ, show ((2 : ℕ) + 1) = 3 from rfl, add_tiles_point_z3]
    rfl
  have ebl : build_levels (fun _ => 0) ts_lod5 ts_lod5.datasets
      (List.replicate (ts_lod5.zoom_max - ts_lod5.zoom_min + 1) []) =
      some [[131074], [262148]] := by
    rw [show (List.replicate (ts_lod5.zoom_max - ts_lod5.zoom_min + 1)
        ([] : List ℕ)) = [[], []] from rfl]
    rw [show ts_lod5.datasets =
      [some { max_lod := 5, bounds := some (0, 0, 0, 0), tmp_exists := true }] from rfl]
    rw [build_levels]
    rw [show add_dataset_tiles (fun _ => 0) ts_lod5
        { max_lod := 5, bounds := some (0, 0, 0, 0), tmp_exists := true } [[], []] =
      add_zoom_loop (fun _ => 0) 0 0 0 0 2 0 2 [[], []] from rfl]
    rw [eloop]
    dsimp only
    rw [build_levels]
  simp only [build_tile_manifest]
  rw [ebl]
  rfl

/-- C1 (counterexample): the manifest built for `ts_lod0` contains tile
(z=2, x=2, y=2) even though no dataset of the tileset has `max_lod ≥ 2` —
`build_tile_manifest` clamps `max_lod` from below to `zoom_min`, so a
dataset with `max_lod < zoom_min` still contributes at `z = zoom_min`.
`mercY` is instantiated as the zero function, which agrees with
`asinh(tan(lat·π/180))/π` at the only latitude used (0). -/
theorem manifest_coverage_cex :
    ∃ m, build_tile_manifest (fun _ => 0) ts_lod0 = some m ∧
      manifest_contains (some m) 2 2 2 = true ∧
      ¬ ∃ dd, some dd ∈ ts_lod0.datasets ∧ (2 : ℤ) ≤ dd.max_lod ∧
          dataset_covers (fun _ => 0) dd 2 2 2 := by
  refine ⟨TileManifestM.mk 2 3 [[131074], []], build_ts_lod0_eq, by decide, ?_⟩
  rintro ⟨dd, hdd, hlod, _⟩
  simp only [ts_lod0, List.mem_singleton, Option.some.injEq] at hdd
  subst hdd
  exact absurd hlod (by decide)

/-- C1 (amended): for zoom_min ≤ z ≤ zoom_max, a tile (z,x,y) is in the
manifest iff at least one dataset of the tileset with
`z ≤ clamp(max_lod, zoom_min, zoom_max)` — that is, `max_lod ≥ z` or
`z = zoom_min` — has a readable reprojected GeoTIFF whose WGS-84 extent
(clamped and antimeridian-split as in the code) covers the tile. -/
theorem manifest_coverage_invariant (mercY : ℚ → ℚ) (ts : TilesetM)
    (m : TileManifestM) (hzz : ts.zoom_min ≤ ts.zoom_max)
    (hb : build_tile_manifest mercY ts = some m)
    (z x y : ℕ) (hz1 : ts.zoom_min ≤ z) (hz2 : z ≤ ts.zoom_max) :
    manifest_contains (some m) (z : ℤ) x y = true ↔
      ∃ dd, some dd ∈ ts.datasets ∧ (z : ℤ) ≤ ds_max_zoom ts dd ∧
        dataset_covers mercY dd z x y := by
  obtain ⟨hmin, hmax, hlen, hsort, hmem⟩ := build_manifest_spec mercY ts m hzz hb
  rw [manifest_contains_iff_mem m hsort (z : ℤ) x y]
  have hidx : ((z : ℤ) - (m.min_zoom : ℤ)).toNat = z - ts.zoom_min := by
    rw [hmin]; omega
  constructor
  · rintro ⟨_, _, hmem2⟩
    rw [hidx] at hmem2
    obtain ⟨hjlt, dd, hdd, bb, hbb, hcnt, delta, hdelta, hpd⟩ :=
      (hmem _ _).mp hmem2
    have hz3 : ts.zoom_min + (z - ts.zoom_min) = z := by omega
    rw [hz3] at hdelta
    refine ⟨dd, hdd, ?_, bb, hbb, delta, hdelta, hpd⟩
    have hge := ds_max_zoom_ge ts dd
    omega
  · rintro ⟨dd, hdd, hlod, bb, hbb, delta, hdelta, hpd⟩
    refine ⟨by rw [hmin]; exact_mod_cast hz1, by rw [hmax]; exact_mod_cast hz2, ?_⟩
    rw [hidx]
    apply (hmem _ _).mpr
    have hge := ds_max_zoom_ge ts dd
    refine ⟨by omega, dd, hdd, bb, hbb, by omega, delta, ?_, hpd⟩
    have hz3 : ts.zoom_min + (z - ts.zoom_min) = z := by omega
    rw [hz3]
    exact hdelta

theorem manifest_coverage_invariant_witness :
    manifest_contains (some (TileManifestM.mk 2 3 [[131074], [262148]]))
        ((2 : ℕ) : ℤ) 2 2 = true ↔
      ∃ dd, some dd ∈ ts_lod5.datasets ∧ ((2 : ℕ) : ℤ) ≤ ds_max_zoom ts_lod5 dd ∧
        dataset_covers (fun _ => 0) dd 2 2 2 :=
  manifest_coverage_invariant (fun _ => 0) ts_lod5
    (TileManifestM.mk 2 3 [[131074], [262148]])
    (by decide) build_ts_lod5_eq 2 2 2 (by decide) (by decide)

theorem manifest_data_structure_invariant_witness :
    manifest_contains (some (TileManifestM.mk 2 3 [[131074], [262148]])) 3 4 4 = true ↔
      (((TileManifestM.mk 2 3 [[131074], [262148]]).min_zoom : ℤ) ≤ 3 ∧
       (3 : ℤ) ≤ ((TileManifestM.mk 2 3 [[131074], [262148]]).max_zoom : ℤ) ∧
       pack_tile 4 4 ∈ (TileManifestM.mk 2 3 [[131074], [262148]]).zooms.getD
         (((3 : ℤ) - ((TileManifestM.mk 2 3 [[131074], [262148]]).min_zoom : ℤ)).toNat) []) :=
  (manifest_data_structure_invariant (fun _ => 0) ts_lod5
    (TileManifestM.mk 2 3 [[131074], [262148]])
    (by decide) build_ts_lod5_eq).2.2 3 4 4

/-- C10: calling `manifest_contains` with a NULL manifest returns true for
every tile (no manifest means every tile is generated), while
`manifest_tile_count` on NULL returns 0. -/
theorem null_manifest_defaults :
    (∀ z : ℤ, ∀ x y : ℕ, manifest_contains none z x y = true) ∧
    manifest_tile_count none = 0 := by
  exact ⟨fun _ _ _ => rfl, rfl⟩

/-! ## vrt.c: zoom-specific virtual mosaics -/

/-- The first pass of `build_zoom_vrt` (vrt.c): walk the tileset's dataset
names in source order; skip unknown names, datasets with `max_lod < zoom`
and datasets whose reprojected temp file is missing (`stat` fails); the
surviving entries carry the temp-file path and `max_lod` (here: the
dataset record itself). -/
def collect_zoom_entries (zoom : ℤ) : List (Option DatasetM) → List DatasetM
  | [] => []
  | none :: rest => collect_zoom_entries zoom rest
  | some d :: rest =>
    if d.max_lod < zoom then collect_zoom_entries zoom rest
    else if d.tmp_exists then d :: collect_zoom_entries zoom rest
    else collect_zoom_entries zoom rest

/-- The possible file lists emitted by `build_zoom_vrt` (vrt.c): the
collected entries sorted by libc `qsort` under `compare_by_max_lod_desc`.
The C standard leaves the order of elements that compare equal
unspecified, so qsort is modelled relationally: any permutation of the
input that is pairwise non-increasing in `max_lod`. The `entry_count == 0`
error return is the excluded empty case. -/
def IsZoomVrtList (ts : TilesetM) (zoom : ℤ) (l : List DatasetM) : Prop :=
  collect_zoom_entries zoom ts.datasets ≠ [] ∧
  l.Perm (collect_zoom_entries zoom ts.datasets) ∧
  l.Pairwise (fun a b => b.max_lod ≤ a.max_lod)

/-- Insertion step of a stable descending sort: an element moves before
the first strictly-smaller key, staying after earlier equal keys. -/
def insert_desc (a : DatasetM) : List DatasetM → List DatasetM
  | [] => [a]
  | b :: l => if b.max_lod ≤ a.max_lod then a :: b :: l else b :: insert_desc a l

/-- Stable sort by descending `max_lod` (ties keep source order): the
order the spec claims `build_zoom_vrt` emits. -/
def stable_sort_desc : List DatasetM → List DatasetM
  | [] => []
  | a :: l => insert_desc a (stable_sort_desc l)

theorem collect_zoom_entries_eq_filter (zoom : ℤ) :
    ∀ ds : List (Option DatasetM),
      collect_zoom_entries zoom ds =
        (ds.filterMap id).filter (fun d => decide (zoom ≤ d.max_lod) && d.tmp_exists) := by
  intro ds
  induction ds with
  | nil => rfl
  | cons od rest ih =>
    cases od with
    | none => simpa [collect_zoom_entries, List.filterMap_cons] using ih
    | some d =>
      rw [collect_zoom_entries]
      simp only [List.filterMap_cons, id, List.filter_cons]
      by_cases h1 : d.max_lod < zoom
      · rw [if_pos h1]
        have h2 : ¬(zoom ≤ d.max_lod) := by omega
        simp [h2, ih]
      · rw [if_neg h1]
        have h2 : zoom ≤ d.max_lod := by omega
        by_cases h3 : d.tmp_exists
        · simp [h2, h3, ih]
        · simp [h2, h3, ih]

/-- Concrete tileset refuting the stable-tie part of C2: two distinct
readable datasets with the same `max_lod`. -/
def ts_ties : TilesetM :=
  { zoom_min := 2, zoom_max := 3,
    datasets :=
      [some { max_lod := 5, bounds := some (1, 1, 1, 1), tmp_exists := true },
       some { max_lod := 5, bounds := some (2, 2, 2, 2), tmp_exists := true }] }

/-- C2 (counterexample): `build_zoom_vrt` sorts with libc `qsort`, whose
order on elements that compare equal is unspecified; with two datasets of
equal `max_lod` the reversed list is also a legal qsort output, so the
emitted list is not necessarily the stable (source-order) one the claim
states. -/
theorem zoom_vrt_order_cex :
    ∃ ts : TilesetM, ∃ zoom : ℤ, ∃ l : List DatasetM,
      IsZoomVrtList ts zoom l ∧
      l ≠ stable_sort_desc (collect_zoom_entries zoom ts.datasets) := by
  refine ⟨ts_ties, 2,
    [{ max_lod := 5, bounds := some (2, 2, 2, 2), tmp_exists := true },
     { max_lod := 5, bounds := some (1, 1, 1, 1), tmp_exists := true }],
    ⟨by decide, ?_, by decide⟩, by decide⟩
  have h : collect_zoom_entries 2 ts_ties.datasets =
      [{ max_lod := 5, bounds := some (1, 1, 1, 1), tmp_exists := true },
       { max_lod := 5, bounds := some (2, 2, 2, 2), tmp_exists := true }] := by decide
  rw [h]
  exact List.Perm.swap _ _ _

/-- C2 (amended): every list `build_zoom_vrt` can emit for a tileset and
zoom consists of exactly the known datasets with `max_lod ≥ zoom` and an
existing temp file (with multiplicity, in the sense of `count`), ordered
non-increasingly by `max_lod`; the relative order of equal `max_lod`
values is unspecified. -/
theorem zoom_vrt_order (ts : TilesetM) (zoom : ℤ) (l : List DatasetM)
    (h : IsZoomVrtList ts zoom l) :
    l ≠ [] ∧
    l.Pairwise (fun a b => b.max_lod ≤ a.max_lod) ∧
    ∀ d : DatasetM,
      l.count d =
        ((ts.datasets.filterMap id).filter
          (fun d => decide (zoom ≤ d.max_lod) && d.tmp_exists)).count d := by
  obtain ⟨hne, hperm, hsorted⟩ := h
  refine ⟨?_, hsorted, ?_⟩
  · intro hnil
    rw [hnil] at hperm
    exact hne hperm.nil_eq.symm
  · intro d
    rw [hperm.count_eq, ← collect_zoom_entries_eq_filter]

theorem zoom_vrt_order_witness :
    ([{ max_lod := 5, bounds := some (1, 1, 1, 1), tmp_exists := true },
      { max_lod := 5, bounds := some (2, 2, 2, 2), tmp_exists := true }]
        : List DatasetM) ≠ [] ∧
    List.Pairwise (fun a b : DatasetM => b.max_lod ≤ a.max_lod)
      [{ max_lod := 5, bounds := some (1, 1, 1, 1), tmp_exists := true },
       { max_lod := 5, bounds := some (2, 2, 2, 2), tmp_exists := true }] ∧
    ∀ d : DatasetM,
      List.count d
        [{ max_lod := 5, bounds := some (1, 1, 1, 1), tmp_exists := true },
         { max_lod := 5, bounds := some (2, 2, 2, 2), tmp_exists := true }] =
        ((ts_ties.datasets.filterMap id).filter
          (fun d => decide ((2 : ℤ) ≤ d.max_lod) && d.tmp_exists)).count d :=
  zoom_vrt_order ts_ties 2 _ ⟨by decide, by decide, by decide⟩

/-! ## jobqueue.c and the base-tile parent loop of tiling.c -/

/-- Per-worker parent-side state (WorkerState in jobqueue.c):
`current_job = -1` is modelled as `none`. -/
structure WorkerM where
  current_job : Option ℕ
  active : Bool
  deriving DecidableEq, Repr

/-- The dispatch-loop state of `jobqueue_run`. -/
structure JQState where
  workers : List WorkerM
  next_job : ℕ
  jobs_completed : ℕ
  jobs_succeeded : ℕ
  jobs_failed : ℕ
  deriving DecidableEq, Repr

/-- One observable readiness event on worker i's response pipe, as
processed by one iteration of the inner loop of `jobqueue_run`
(jobqueue.c). A POLLIN revent with a full status read carries the
status value and whether the follow-up `send_job` write succeeds; a
POLLIN with a short read is `recv_fail`; POLLERR/POLLHUP/POLLNVAL is
`hangup`. A combined POLLIN|POLLHUP revent is the `status` event followed
by the `hangup` event, as in the C code. -/
inductive JQEvent where
  | status (i : ℕ) (st : ℤ) (send_ok : Bool)
  | recv_fail (i : ℕ)
  | hangup (i : ℕ)
  deriving DecidableEq, Repr

/-- Embedding of one branch body of the dispatch loop of `jobqueue_run`
(jobqueue.c): events on inactive workers are skipped by the
`if (!workers[i].active) continue`. -/
def jq_step (num_jobs : ℕ) (s : JQState) (e : JQEvent) : JQState :=
  match e with
  | .status i st send_ok =>
    match s.workers.get? i with
    | none => s
    | some w =>
      if ¬ w.active then s
      else
        let s1 : JQState :=
          { s with
            jobs_completed := s.jobs_completed + 1
            jobs_succeeded := if st = 0 then s.jobs_succeeded + 1 else s.jobs_succeeded
            jobs_failed := if st = 0 then s.jobs_failed else s.jobs_failed + 1 }
        if s.next_job < num_jobs then
          if send_ok then
            { s1 with
              workers := s.workers.set i { current_job := some s.next_job, active := true }
              next_job := s.next_job + 1 }
          else
            { s1 with workers := s.workers.set i { current_job := none, active := false } }
        else
          { s1 with workers := s.workers.set i { current_job := none, active := w.active } }
  | .recv_fail i =>
    match s.workers.get? i with
    | none => s
    | some w =>
      if ¬ w.active then s
      else { s with workers := s.workers.set i { current_job := w.current_job, active := false } }
  | .hangup i =>
    match s.workers.get? i with
    | none => s
    | some w =>
      if ¬ w.active then s
      else if w.current_job ≠ none then
        { s with
          jobs_completed := s.jobs_completed + 1
          jobs_failed := s.jobs_failed + 1
          workers := s.workers.set i { current_job := w.current_job, active := false } }
      else
        { s with workers := s.workers.set i { current_job := w.current_job, active := false } }

/-- Number of live workers, the `active_count` the outer loop guard tests
against zero (`all workers died`). -/
def active_count (s : JQState) : ℕ := (s.workers.filter (fun w => w.active)).length

/-- Embedding of the parent wait loop of the base-tile phase
(`generate_tileset_tiles_parallel`, tiling.c lines 867-877): waitpid each
worker in order; the first non-zero exit status makes the function return
-1, aborting the phase (Phase 2 never runs); otherwise continue with 0. -/
def tile_phase_wait : List ℕ → ℤ
  | [] => 0
  | st :: rest => if st ≠ 0 then -1 else tile_phase_wait rest

/-- C3 (counterexample): in the base-tile phase the failure-isolation
contract does not hold: with worker exit statuses [1, 0] (one worker
exited non-zero, one survived and exited cleanly), the parent of
`generate_tileset_tiles_parallel` returns -1 — aborting the phase and
skipping Phase 2 — instead of counting one failed job and continuing. -/
theorem failure_isolation_cex :
    ¬ (∀ statuses : List ℕ, (∃ s ∈ statuses, s = 0) →
        (∃ s ∈ statuses, s ≠ 0) → tile_phase_wait statuses = 0) := by
  intro h
  have h2 := h [1, 0] ⟨0, by decide, rfl⟩ ⟨1, by decide, by decide⟩
  rw [show tile_phase_wait [1, 0] = -1 from rfl] at h2
  exact absurd h2 (by decide)

/-- C3 (amended): failure isolation holds for the dataset phase run by
`jobqueue_run`: a broken worker pipe while the worker holds a job counts
exactly one job as failed and one as completed, touches no other counter
or worker, and the dispatch loop keeps running while another worker is
active; a non-zero job status likewise counts exactly one failure and the
worker is immediately handed the next pending job when the send succeeds.
In the base-tile phase, by contrast, any non-zero worker exit makes the
parent return -1 (abort), even when other workers survived. -/
theorem failure_isolation (num_jobs : ℕ) (s : JQState) (i : ℕ) (w : WorkerM)
    (hw : s.workers[i]? = some w) (hact : w.active = true)
    (hjob : w.current_job ≠ none) :
    ((jq_step num_jobs s (.hangup i)).jobs_failed = s.jobs_failed + 1 ∧
     (jq_step num_jobs s (.hangup i)).jobs_completed = s.jobs_completed + 1 ∧
     (jq_step num_jobs s (.hangup i)).jobs_succeeded = s.jobs_succeeded ∧
     (jq_step num_jobs s (.hangup i)).next_job = s.next_job ∧
     (∀ j, j ≠ i →
       (jq_step num_jobs s (.hangup i)).workers[j]? = s.workers[j]?) ∧
     (∀ j w2, j ≠ i → s.workers[j]? = some w2 → w2.active = true →
       0 < active_count (jq_step num_jobs s (.hangup i)))) ∧
    (∀ st : ℤ, st ≠ 0 → ∀ send_ok,
      (jq_step num_jobs s (.status i st send_ok)).jobs_failed = s.jobs_failed + 1 ∧
      (s.next_job < num_jobs → send_ok = true →
        (jq_step num_jobs s (.status i st send_ok)).workers[i]? =
          some { current_job := some s.next_job, active := true } ∧
        (jq_step num_jobs s (.status i st send_ok)).next_job = s.next_job + 1)) ∧
    (∀ statuses : List ℕ, (∃ st ∈ statuses, st ≠ 0) →
      tile_phase_wait statuses = -1) := by
  have hi : i < s.workers.length := by
    by_contra hge
    rw [List.getElem?_eq_none (by omega)] at hw
    cases hw
  refine ⟨⟨?_, ?_, ?_, ?_, ?_, ?_⟩, ?_, ?_⟩
  · simp [jq_step, hw, hact, hjob]
  · simp [jq_step, hw, hact, hjob]
  · simp [jq_step, hw, hact, hjob]
  · simp [jq_step, hw, hact, hjob]
  · intro j hji
    simp [jq_step, hw, hact, hjob, List.getElem?_set_ne (Ne.symm hji)]
  · intro j w2 hji hw2 hact2
    have hmem : w2 ∈ (jq_step num_jobs s (.hangup i)).workers.filter
        (fun w => w.active) := by
      rw [List.mem_filter]
      constructor
      · have hget : (jq_step num_jobs s (.hangup i)).workers[j]? = some w2 := by
          simp [jq_step, hw, hact, hjob, List.getElem?_set_ne (Ne.symm hji), hw2]
        obtain ⟨hlt, heq⟩ := List.getElem?_eq_some.mp hget
        exact heq ▸ List.getElem_mem hlt
      · exact hact2
    unfold active_count
    exact List.length_pos.mpr (fun hemp => by rw [hemp] at hmem; cases hmem)
  · intro st hst send_ok
    constructor
    · simp [jq_step, hw, hact, hst]
      split_ifs <;> rfl
    · intro hnext hsend
      subst hsend
      constructor
      · simp [jq_step, hw, hact, hst, hnext, List.getElem?_set_self hi]
      · simp [jq_step, hw, hact, hst, hnext]
  · intro statuses
    induction statuses with
    | nil =>
      rintro ⟨st, hmem, _⟩
      cases hmem
    | cons a rest ih =>
      intro hbad
      rw [tile_phase_wait]
      by_cases ha : a ≠ 0
      · rw [if_pos ha]
      · rw [if_neg ha]
        push_neg at ha
        apply ih
        obtain ⟨st, hmem, hstne⟩ := hbad
        rcases List.mem_cons.mp hmem with heq | hmem2
        · exact absurd (heq.trans ha) hstne
        · exact ⟨st, hmem2, hstne⟩

theorem failure_isolation_witness :
    (jq_step 5
        (JQState.mk [WorkerM.mk (some 0) true, WorkerM.mk (some 1) true] 2 0 0 0)
        (JQEvent.hangup 0)).jobs_failed =
      (JQState.mk [WorkerM.mk (some 0) true, WorkerM.mk (some 1) true]
        2 0 0 0).jobs_failed + 1 :=
  (failure_isolation 5
    (JQState.mk [WorkerM.mk (some 0) true, WorkerM.mk (some 1) true] 2 0 0 0)
    0 (WorkerM.mk (some 0) true) (by decide) (by decide) (by decide)).1.1

/-!
## processing.c: mask window offsets and GCP pixel adjustment (C4)
-/

/-- A polygon vertex in source-image pixel space (processing.c `Vertex`,
C doubles modelled exactly as rationals). -/
structure VertexM where
  x : ℚ
  y : ℚ
  deriving DecidableEq, Repr

/-- A pixel-space mask (aeronav.h `Mask`): a list of rings, ring 0 being the
outer boundary; each ring is its vertex list. -/
structure MaskM where
  rings : List (List VertexM)
  deriving DecidableEq, Repr

/-- Outcome of `apply_mask` (processing.c) as far as windowing state is
concerned: `noop` is the `*out = NULL, return 0` path, which leaves the
inherited offsets unchanged; `err` is the `Invalid mask bounding box`
failure; `applied` carries the cumulative offsets written to
`*out_offset_x/y` and the extracted window size.  Band copying, the alpha
band and the polygon burn go through GDAL and do not affect the offsets. -/
inductive MaskResult where
  | noop (out_offset_x out_offset_y : ℤ)
  | err
  | applied (out_offset_x out_offset_y : ℤ) (window_width window_height : ℤ)
  deriving DecidableEq, Repr

/-- The one-sided lower clamp of `apply_mask`: `if (min < 0) min = 0;`. -/
def clamp_lo (v : ℤ) : ℤ := if v < 0 then 0 else v

/-- The one-sided upper clamp of `apply_mask`: `if (max > bound) max = bound;`. -/
def clamp_hi (v bound : ℤ) : ℤ := if v > bound then bound else v

/-- Embedding of the bounding-box/offset logic of `apply_mask`
(processing.c lines 182-406): no mask or an empty outer ring is a no-op;
otherwise min/max over the `(int)`-cast outer-ring vertices shifted by the
inherited window offset (loop seeded with vertex 0), clamped one-sidedly
to the source raster, a degenerate window rejected, and the cumulative
offset `win_offset + min` returned. -/
def apply_mask (mask : Option MaskM) (win_offset_x win_offset_y : ℤ)
    (src_width src_height : ℤ) : MaskResult :=
  match mask with
  | none => .noop win_offset_x win_offset_y
  | some m =>
    match m.rings with
    | [] => .noop win_offset_x win_offset_y
    | outer :: _ =>
      match outer with
      | [] => .noop win_offset_x win_offset_y
      | v0 :: vs =>
        let min_x0 := vs.foldl (fun acc v => min acc (ctrunc v.x - win_offset_x))
          (ctrunc v0.x - win_offset_x)
        let max_x0 := vs.foldl (fun acc v => max acc (ctrunc v.x - win_offset_x))
          (ctrunc v0.x - win_offset_x)
        let min_y0 := vs.foldl (fun acc v => min acc (ctrunc v.y - win_offset_y))
          (ctrunc v0.y - win_offset_y)
        let max_y0 := vs.foldl (fun acc v => max acc (ctrunc v.y - win_offset_y))
          (ctrunc v0.y - win_offset_y)
        let min_x := clamp_lo min_x0
        let min_y := clamp_lo min_y0
        let max_x := clamp_hi max_x0 src_width
        let max_y := clamp_hi max_y0 src_height
        let window_width := max_x - min_x
        let window_height := max_y - min_y
        if window_width ≤ 0 ∨ window_height ≤ 0 then .err
        else .applied (win_offset_x + min_x) (win_offset_y + min_y)
          window_width window_height

/-- A ground control point (aeronav.h `ControlPoint`): pixel coordinates in
original-image space plus a WGS-84 position. -/
structure ControlPointM where
  pixel_x : ℚ
  pixel_y : ℚ
  lon : ℚ
  lat : ℚ
  deriving DecidableEq, Repr

/-- A `GDAL_GCP` record as filled by `apply_gcps`: adjusted pixel/line
coordinates and the (possibly CRS-transformed) world position. -/
structure GdalGcpM where
  pixel : ℚ
  line : ℚ
  world : ℚ × ℚ
  deriving DecidableEq, Repr

/-- An affine 6-tuple geotransform. -/
def GeoTransform : Type := ℚ × ℚ × ℚ × ℚ × ℚ × ℚ

/-- Outcome of `apply_gcps`: `noop` when there are no GCPs (`*out = NULL`),
`err` when `GDALGCPsToGeoTransform` fails, `applied` with the geotransform
set on the copied dataset. -/
inductive GcpResult where
  | noop
  | err
  | applied (g6 : GeoTransform)

/-- Embedding of `apply_gcps` (processing.c lines 415-564).  `T` abstracts
the WGS-84 → source-CRS coordinate transform (the identity when the source
has no CRS); `solve` abstracts `GDALGCPsToGeoTransform`, returning `none`
on failure.  Each GCP's pixel coordinates are shifted by the cumulative
window offset before the solver runs. -/
def apply_gcps (T : ℚ → ℚ → ℚ × ℚ) (solve : List GdalGcpM → Option GeoTransform)
    (gcps : List ControlPointM) (offset_x offset_y : ℤ) : GcpResult :=
  match gcps with
  | [] => .noop
  | _ :: _ =>
    match solve (gcps.map (fun g =>
        GdalGcpM.mk (g.pixel_x - (offset_x : ℚ)) (g.pixel_y - (offset_y : ℚ))
          (T g.lon g.lat))) with
    | none => .err
    | some g6 => .applied g6

/-- The lower clamp is a truncation at zero. -/
theorem clamp_lo_eq_max (v : ℤ) : clamp_lo v = max 0 v := by
  unfold clamp_lo
  split_ifs <;> omega

/-- C4 (offset accumulator): whenever `apply_mask` actually applies a mask,
the returned cumulative offset is `(ox + bbox_min_x, oy + bbox_min_y)`,
where `bbox_min` is the outer-ring bounding-box corner in
`(source - (ox,oy))` space clamped below at 0 — stated declaratively via
`List.min?` over all `(int)`-cast outer-ring vertices — and `apply_gcps`
subtracts exactly this cumulative offset from every GCP pixel coordinate
in the array handed to the geotransform solver. -/
theorem offset_accumulator
    (mask : MaskM) (v0 : VertexM) (vs : List VertexM) (rest : List (List VertexM))
    (hr : mask.rings = (v0 :: vs) :: rest)
    (ox oy w h offx offy ww wh : ℤ)
    (happ : apply_mask (some mask) ox oy w h = .applied offx offy ww wh) :
    (∃ mnx mny,
        ((v0 :: vs).map (fun v => ctrunc v.x - ox)).min? = some mnx ∧
        ((v0 :: vs).map (fun v => ctrunc v.y - oy)).min? = some mny ∧
        offx = ox + max 0 mnx ∧ offy = oy + max 0 mny) ∧
    ∀ (T : ℚ → ℚ → ℚ × ℚ) (solve : List GdalGcpM → Option GeoTransform)
      (gcps : List ControlPointM) (g6 : GeoTransform),
        apply_gcps T solve gcps offx offy = .applied g6 →
        solve (gcps.map (fun g =>
          GdalGcpM.mk (g.pixel_x - (offx : ℚ)) (g.pixel_y - (offy : ℚ))
            (T g.lon g.lat))) = some g6 := by
  constructor
  · unfold apply_mask at happ
    dsimp only at happ
    rw [hr] at happ
    dsimp only at happ
    have hA : ((v0 :: vs).map (fun v => ctrunc v.x - ox)).min? =
        some (vs.foldl (fun acc v => min acc (ctrunc v.x - ox)) (ctrunc v0.x - ox)) := by
      simp only [List.map_cons, List.min?_cons', List.foldl_map]
    have hB : ((v0 :: vs).map (fun v => ctrunc v.y - oy)).min? =
        some (vs.foldl (fun acc v => min acc (ctrunc v.y - oy)) (ctrunc v0.y - oy)) := by
      simp only [List.map_cons, List.min?_cons', List.foldl_map]
    split_ifs at happ with hsplit
    injection happ with h1 h2 h3 h4
    refine ⟨_, _, hA, hB, ?_, ?_⟩
    · rw [← h1, clamp_lo_eq_max]
    · rw [← h2, clamp_lo_eq_max]
  · intro T solve gcps g6 hg
    match gcps with
    | [] => cases hg
    | g :: gs =>
      unfold apply_gcps at hg
      revert hg
      cases hs : solve ((g :: gs).map (fun g =>
          GdalGcpM.mk (g.pixel_x - (offx : ℚ)) (g.pixel_y - (offy : ℚ))
            (T g.lon g.lat))) with
      | none => intro hg; cases hg
      | some g7 => intro hg; cases hg; rfl

set_option maxRecDepth 8000 in
theorem offset_accumulator_witness :
    ∃ mnx mny,
      (([VertexM.mk 100 100, VertexM.mk 900 100, VertexM.mk 900 900,
          VertexM.mk 100 900] : List VertexM).map (fun v => ctrunc v.x - 10)).min?
          = some mnx ∧
      (([VertexM.mk 100 100, VertexM.mk 900 100, VertexM.mk 900 900,
          VertexM.mk 100 900] : List VertexM).map (fun v => ctrunc v.y - 20)).min?
          = some mny ∧
      (100 : ℤ) = 10 + max 0 mnx ∧ (100 : ℤ) = 20 + max 0 mny :=
  (offset_accumulator
    (MaskM.mk [[VertexM.mk 100 100, VertexM.mk 900 100, VertexM.mk 900 900,
      VertexM.mk 100 900]])
    (VertexM.mk 100 100)
    [VertexM.mk 900 100, VertexM.mk 900 900, VertexM.mk 100 900] []
    rfl 10 20 2000 2000 100 100 800 800 (by with_unfolding_all decide)).1

/-!
## tiling.c: base and overview tile generation (C5, C6)
-/

/-- Filesystem actions of the tile generators that mutate the output tree:
the `mkdir_p` of `<outpath>/<tile_path>/<z>/<x>` and the write of
`<z>/<x>/<y>.<ext>`. -/
inductive FsAction where
  | mkdirp (z x : ℕ)
  | writeTile (z x y : ℕ)
  deriving DecidableEq, Repr

/-- Return codes of `generate_base_tile` / `generate_overview_tile`
(tiling.c): 0 = written, 1 = skipped, 2 = skipped because the tile already
exists, -1 = error. -/
inductive TileStatus where
  | written
  | skipped
  | existing
  | error
  deriving DecidableEq, Repr

/-- The environment `generate_base_tile` reads: the output tree
(`tile_exists` is the initial `stat` on `<z>/<x>/<y>.<ext>`), the source
mosaic's geotransform and shape, and abstractions of the GDAL calls:
`read_band b (rx,ry,rw,rh) (tw,th)` is `GDALRasterIOEx` reading band `b`
over that source window resampled to a `tw`-by-`th` buffer (`none` = read
failure), `mkdir_ok` is `mkdir_p` succeeding, `write_ok` collapses the MEM
dataset creation, band writes and `GDALCreateCopy` succeeding. -/
structure BaseTileEnv where
  tile_exists : ℕ → ℕ → ℕ → Bool
  geotransform : Option (ℚ × ℚ × ℚ × ℚ × ℚ × ℚ)
  ds_width : ℤ
  ds_height : ℤ
  band_count : ℤ
  read_band : ℕ → ℤ × ℤ × ℤ × ℤ → ℤ × ℤ → Option (ℕ → ℕ → ℕ)
  mkdir_ok : ℕ → ℕ → Bool
  write_ok : Bool

/-- How far `generate_base_tile` gets before touching the filesystem:
the guard chain of tiling.c lines 88-216 in source order (exists check,
geotransform, intersection, read window, tile window, band count, band
reads), ending in the read/tile window placement when the RGBA buffer has
been assembled. -/
inductive BaseAssembly where
  | existing
  | no_geotransform
  | skip
  | few_bands
  | read_fail
  | assembled (read_x read_y read_w read_h tile_x0 tile_y0 tile_w tile_h : ℤ)
  deriving DecidableEq, Repr

/-- The source read window of `generate_base_tile` (tiling.c lines
121-136): pixel coordinates of the tile extent in the source dataset,
clamped one-sidedly to the dataset shape, `(int)`-cast origin and
`(int)(span + 0.5)` size. -/
def base_read_window (g0 g1 g3 g5 : ℚ) (ds_w ds_h : ℤ) (b : TileBounds) :
    ℤ × ℤ × ℤ × ℤ :=
  let src_x0 := (b.min_x - g0) / g1
  let src_y0 := (b.max_y - g3) / g5
  let src_x1 := (b.max_x - g0) / g1
  let src_y1 := (b.min_y - g3) / g5
  let src_x0 := if src_x0 < 0 then 0 else src_x0
  let src_y0 := if src_y0 < 0 then 0 else src_y0
  let src_x1 := if src_x1 > (ds_w : ℚ) then (ds_w : ℚ) else src_x1
  let src_y1 := if src_y1 > (ds_h : ℚ) then (ds_h : ℚ) else src_y1
  (ctrunc src_x0, ctrunc src_y0,
   ctrunc (src_x1 - src_x0 + 1 / 2), ctrunc (src_y1 - src_y0 + 1 / 2))

/-- The placement of the read data inside the 256x256 tile
(tiling.c lines 142-159): full tile by default, shrunk on each side the
source does not reach. -/
def base_tile_window (g0 g1 g3 g5 : ℚ) (ds_w ds_h : ℤ) (b : TileBounds) :
    ℤ × ℤ × ℤ × ℤ :=
  let ds_min_x := g0
  let ds_max_x := g0 + (ds_w : ℚ) * g1
  let ds_max_y := g3
  let ds_min_y := g3 + (ds_h : ℚ) * g5
  let tile_x0 : ℤ :=
    if b.min_x < ds_min_x then
      ctrunc ((ds_min_x - b.min_x) / (b.max_x - b.min_x) * (TILE_SIZE : ℚ))
    else 0
  let tile_w : ℤ :=
    if b.max_x > ds_max_x then
      ctrunc ((ds_max_x - b.min_x) / (b.max_x - b.min_x) * (TILE_SIZE : ℚ)) - tile_x0
    else (TILE_SIZE : ℤ) - tile_x0
  let tile_y0 : ℤ :=
    if b.max_y > ds_max_y then
      ctrunc ((b.max_y - ds_max_y) / (b.max_y - b.min_y) * (TILE_SIZE : ℚ))
    else 0
  let tile_h : ℤ :=
    if b.min_y < ds_min_y then
      ctrunc ((b.max_y - ds_min_y) / (b.max_y - b.min_y) * (TILE_SIZE : ℚ)) - tile_y0
    else (TILE_SIZE : ℤ) - tile_y0
  (tile_x0, tile_y0, tile_w, tile_h)

/-- Embedding of `generate_base_tile` (tiling.c) up to buffer assembly:
the guard chain of lines 88-216 in source order — exists check,
geotransform, tile/dataset intersection, read window, tile window, band
count, and the four band reads (alpha is band 4 when the source has one) —
ending in the window placement once the RGBA buffer has been assembled. -/
def assemble_base_tile (env : BaseTileEnv) (z x y : ℕ) : BaseAssembly :=
  if env.tile_exists z x y then .existing
  else
    match env.geotransform with
    | none => .no_geotransform
    | some (g0, g1, _g2, g3, _g4, g5) =>
      let b := tile_bounds z x y
      if b.max_x ≤ g0 ∨ b.min_x ≥ g0 + (env.ds_width : ℚ) * g1 ∨
         b.max_y ≤ g3 + (env.ds_height : ℚ) * g5 ∨ b.min_y ≥ g3 then .skip
      else
        match base_read_window g0 g1 g3 g5 env.ds_width env.ds_height b with
        | (read_x, read_y, read_w, read_h) =>
          if read_w ≤ 0 ∨ read_h ≤ 0 then .skip
          else
            match base_tile_window g0 g1 g3 g5 env.ds_width env.ds_height b with
            | (tile_x0, tile_y0, tile_w, tile_h) =>
              if tile_w ≤ 0 ∨ tile_h ≤ 0 then .skip
              else if env.band_count < 3 then .few_bands
              else if (env.read_band 1 (read_x, read_y, read_w, read_h) (tile_w, tile_h)).isSome
                   && (env.read_band 2 (read_x, read_y, read_w, read_h) (tile_w, tile_h)).isSome
                   && (env.read_band 3 (read_x, read_y, read_w, read_h) (tile_w, tile_h)).isSome
                   && (if 4 ≤ env.band_count then
                        (env.read_band 4 (read_x, read_y, read_w, read_h) (tile_w, tile_h)).isSome
                      else true)
              then .assembled read_x read_y read_w read_h tile_x0 tile_y0 tile_w tile_h
              else .read_fail

/-- The alpha channel of the RGBA tile buffer assembled by the band loop of
`generate_base_tile`: zero-initialised (`calloc`), then inside the window
`[tile_x0, tile_x0 + tile_w) x [tile_y0, tile_y0 + tile_h)` either the
resampled source alpha band (band 4, when the source has one) or the
constant 255. -/
def assembled_alpha (env : BaseTileEnv)
    (read_x read_y read_w read_h tile_x0 tile_y0 tile_w tile_h : ℤ)
    (px py : ℕ) : ℕ :=
  if tile_x0 ≤ (px : ℤ) ∧ (px : ℤ) < tile_x0 + tile_w ∧
     tile_y0 ≤ (py : ℤ) ∧ (py : ℤ) < tile_y0 + tile_h then
    if 4 ≤ env.band_count then
      ((env.read_band 4 (read_x, read_y, read_w, read_h) (tile_w, tile_h)).getD
        (fun _ _ => 0)) ((px : ℤ) - tile_x0).toNat ((py : ℤ) - tile_y0).toNat
    else 255
  else 0

/-- The `is_empty` scan of the tile generators: every alpha byte of the
256x256 RGBA buffer (indices 3, 7, ..., i.e. every pixel, row-major) is
zero. -/
def alpha_all_zero (a : ℕ → ℕ → ℕ) : Bool :=
  (List.range TILE_SIZE).all fun py => (List.range TILE_SIZE).all fun px => a px py == 0

/-- Embedding of `generate_base_tile` (tiling.c lines 82-294): assemble the
RGBA buffer, skip without any filesystem action when its alpha is all zero,
otherwise `mkdir_p` the tile directory and write the tile file (failures
after a successful mkdir leave only the directory behind). -/
def generate_base_tile (env : BaseTileEnv) (z x y : ℕ) :
    TileStatus × List FsAction :=
  match assemble_base_tile env z x y with
  | .existing => (.existing, [])
  | .no_geotransform => (.error, [])
  | .skip => (.skipped, [])
  | .few_bands => (.error, [])
  | .read_fail => (.error, [])
  | .assembled rx ry rw rh tx ty tw th =>
    if alpha_all_zero (assembled_alpha env rx ry rw rh tx ty tw th) then (.skipped, [])
    else if env.mkdir_ok z x then
      if env.write_ok then (.written, [.mkdirp z x, .writeTile z x y])
      else (.error, [.mkdirp z x])
    else (.error, [])

/-- A child tile as `generate_overview_tile` sees it after `stat` and
`GDALOpen` succeed: its band count and its alpha band content (band 4). -/
structure ChildM where
  bands : ℤ
  alpha : ℕ → ℕ → ℕ

/-- The environment `generate_overview_tile` reads: the output tree, the
openable child tiles at zoom z+1, and abstractions of the GDAL calls
(`resample` is the `GDALRasterIOEx` downsampling of the 512x512 composite
to 256x256; `io_ok` collapses the MEM dataset creations and band IO;
`mkdir_ok` and `write_ok` as for the base generator). -/
structure OverviewEnv where
  tile_exists : ℕ → ℕ → ℕ → Bool
  child : ℕ → ℕ → ℕ → Option ChildM
  resample : (ℕ → ℕ → ℕ) → (ℕ → ℕ → ℕ)
  io_ok : Bool
  mkdir_ok : ℕ → ℕ → Bool
  write_ok : Bool

/-- The alpha channel of the 512x512 composite assembled by
`generate_overview_tile`: quadrant (qx,qy) holds child (2x+qx, 2y+qy) at
zoom z+1; a missing child leaves the `calloc` zeros, an RGB child (3 bands)
is fully opaque, an RGBA child contributes its alpha band. -/
def composite_alpha (env : OverviewEnv) (z x y : ℕ) (cx cy : ℕ) : ℕ :=
  let qx := cx / TILE_SIZE
  let qy := cy / TILE_SIZE
  match env.child (z + 1) (2 * x + qx) (2 * y + qy) with
  | none => 0
  | some c =>
    if 4 ≤ c.bands then c.alpha (cx % TILE_SIZE) (cy % TILE_SIZE)
    else if c.bands = 3 then 255
    else 0

/-- Embedding of `generate_overview_tile` (tiling.c lines 309-545): skip if
the tile exists (never overwrite Phase-1 base tiles), skip when no child
tile exists, composite the four children, downsample, skip without any
filesystem action when the resampled alpha is all zero, else mkdir and
write. -/
def generate_overview_tile (env : OverviewEnv) (z x y : ℕ) :
    TileStatus × List FsAction :=
  if env.tile_exists z x y then (.existing, [])
  else if (env.child (z + 1) (2 * x) (2 * y)).isNone
       && (env.child (z + 1) (2 * x + 1) (2 * y)).isNone
       && (env.child (z + 1) (2 * x) (2 * y + 1)).isNone
       && (env.child (z + 1) (2 * x + 1) (2 * y + 1)).isNone then (.skipped, [])
  else if !env.io_ok then (.error, [])
  else if alpha_all_zero (env.resample (composite_alpha env z x y)) then (.skipped, [])
  else if env.mkdir_ok z x then
    if env.write_ok then (.written, [.mkdirp z x, .writeTile z x y])
    else (.error, [.mkdirp z x])
  else (.error, [])

theorem writeTile_mem_generate_base (env : BaseTileEnv) (z x y : ℕ) (a b c : ℕ)
    (hmem : FsAction.writeTile a b c ∈ (generate_base_tile env z x y).2) :
    (generate_base_tile env z x y).1 = .written := by
  unfold generate_base_tile at hmem ⊢
  cases hasm : assemble_base_tile env z x y <;> simp_all
  split_ifs at hmem ⊢ <;> simp_all

theorem writeTile_mem_generate_overview (env : OverviewEnv) (z x y : ℕ) (a b c : ℕ)
    (hmem : FsAction.writeTile a b c ∈ (generate_overview_tile env z x y).2) :
    (generate_overview_tile env z x y).1 = .written := by
  unfold generate_overview_tile at hmem ⊢
  split_ifs at hmem ⊢ <;> simp_all

/-- C5 (empty-tile suppression): whenever the base-tile pipeline reaches
buffer assembly and the assembled 256x256 RGBA buffer has alpha 0 at every
pixel, `generate_base_tile` returns the skip result and performs no
filesystem action — no file is written and no directory is created for
that (z,x,y). -/
theorem empty_tile_suppression (env : BaseTileEnv) (z x y : ℕ)
    (rx ry rw rh tx ty tw th : ℤ)
    (hassem : assemble_base_tile env z x y = .assembled rx ry rw rh tx ty tw th)
    (hzero : ∀ px py, px < TILE_SIZE → py < TILE_SIZE →
      assembled_alpha env rx ry rw rh tx ty tw th px py = 0) :
    generate_base_tile env z x y = (.skipped, []) := by
  unfold generate_base_tile
  rw [hassem]
  have hall : alpha_all_zero (assembled_alpha env rx ry rw rh tx ty tw th) = true := by
    simp only [alpha_all_zero, List.all_eq_true, List.mem_range, beq_iff_eq]
    intro py hpy px hpx
    exact hzero px py hpx hpy
  simp [hall]

/-- A concrete environment whose source mosaic covers the whole world with
a fully transparent (all-zero) alpha band. -/
def env_empty : BaseTileEnv :=
  BaseTileEnv.mk (fun _ _ _ => false)
    (some (-ORIGIN_SHIFT, 1, 0, ORIGIN_SHIFT, 0, -1))
    50000000 50000000 4
    (fun _ _ _ => some (fun _ _ => 0))
    (fun _ _ => true) true

set_option maxRecDepth 8000 in
theorem empty_tile_suppression_witness :
    generate_base_tile env_empty 1 1 1 = (.skipped, []) := by
  have e1 : (tile_bounds 1 1 1).min_x = 0 :=
    Rat.ext (by with_unfolding_all decide) (by with_unfolding_all decide)
  have e2 : (tile_bounds 1 1 1).min_y = -ORIGIN_SHIFT :=
    Rat.ext (by with_unfolding_all decide) (by with_unfolding_all decide)
  have e3 : (tile_bounds 1 1 1).max_x = ORIGIN_SHIFT :=
    Rat.ext (by with_unfolding_all decide) (by with_unfolding_all decide)
  have e4 : (tile_bounds 1 1 1).max_y = 0 :=
    Rat.ext (by with_unfolding_all decide) (by with_unfolding_all decide)
  have hb : tile_bounds 1 1 1 = TileBounds.mk 0 (-ORIGIN_SHIFT) ORIGIN_SHIFT 0 := by
    cases hb0 : tile_bounds 1 1 1
    rw [hb0] at e1 e2 e3 e4
    simp only at e1 e2 e3 e4
    rw [e1, e2, e3, e4]
  have hrw : base_read_window (-ORIGIN_SHIFT) 1 ORIGIN_SHIFT (-1) 50000000 50000000
      (TileBounds.mk 0 (-ORIGIN_SHIFT) ORIGIN_SHIFT 0) =
      (20037508, 20037508, 20037508, 20037508) := by
    with_unfolding_all decide
  have htw : base_tile_window (-ORIGIN_SHIFT) 1 ORIGIN_SHIFT (-1) 50000000 50000000
      (TileBounds.mk 0 (-ORIGIN_SHIFT) ORIGIN_SHIFT 0) = (0, 0, 256, 256) := by
    with_unfolding_all decide
  have hguard : ¬((TileBounds.mk (0 : ℚ) (-ORIGIN_SHIFT) ORIGIN_SHIFT 0).max_x ≤ -ORIGIN_SHIFT ∨
      (TileBounds.mk (0 : ℚ) (-ORIGIN_SHIFT) ORIGIN_SHIFT 0).min_x ≥
        -ORIGIN_SHIFT + ((50000000 : ℤ) : ℚ) * 1 ∨
      (TileBounds.mk (0 : ℚ) (-ORIGIN_SHIFT) ORIGIN_SHIFT 0).max_y ≤
        ORIGIN_SHIFT + ((50000000 : ℤ) : ℚ) * (-1) ∨
      (TileBounds.mk (0 : ℚ) (-ORIGIN_SHIFT) ORIGIN_SHIFT 0).min_y ≥ ORIGIN_SHIFT) := by
    with_unfolding_all decide
  have hassem : assemble_base_tile env_empty 1 1 1 =
      .assembled 20037508 20037508 20037508 20037508 0 0 256 256 := by
    unfold assemble_base_tile
    simp only [env_empty]
    rw [hb, if_neg hguard, hrw]
    dsimp only
    rw [if_neg (by decide), htw]
    dsimp only
    rw [if_neg (by decide), if_neg (by decide)]
    simp
  exact empty_tile_suppression env_empty 1 1 1
    20037508 20037508 20037508 20037508 0 0 256 256 hassem
    (by
      intro px py _ _
      unfold assembled_alpha env_empty
      dsimp only
      split_ifs <;> first | rfl | omega)

/-- The output tree after a run of the base-tile phase over `env1`: every
tile the run wrote now exists; nothing else changed. -/
def mark_written_base (env1 : BaseTileEnv) : BaseTileEnv :=
  { env1 with
    tile_exists := fun z x y =>
      env1.tile_exists z x y ||
        decide ((generate_base_tile env1 z x y).1 = .written) }

/-- The output tree after a run of the overview phase over `env1` at one
zoom level: every tile the run wrote now exists; the children at z+1 were
complete before the run and are unchanged. -/
def mark_written_overview (env1 : OverviewEnv) : OverviewEnv :=
  { env1 with
    tile_exists := fun z x y =>
      env1.tile_exists z x y ||
        decide ((generate_overview_tile env1 z x y).1 = .written) }

/-- C6 (no tile file is ever overwritten): if the output file for (z,x,y)
already exists, both `generate_base_tile` and `generate_overview_tile`
return the already-exists result before any read or write, with no
filesystem action; consequently, re-running either generator over the
unchanged output tree — the same environment with the tiles written by the
first run now existing — writes no tile file. -/
theorem no_tile_overwrite :
    (∀ (env : BaseTileEnv) (z x y : ℕ), env.tile_exists z x y = true →
      generate_base_tile env z x y = (.existing, [])) ∧
    (∀ (env : OverviewEnv) (z x y : ℕ), env.tile_exists z x y = true →
      generate_overview_tile env z x y = (.existing, [])) ∧
    (∀ (env1 : BaseTileEnv) (z x y : ℕ),
      (generate_base_tile (mark_written_base env1) z x y).1 ≠ .written ∧
      FsAction.writeTile z x y ∉ (generate_base_tile (mark_written_base env1) z x y).2) ∧
    (∀ (env1 : OverviewEnv) (z x y : ℕ),
      (generate_overview_tile (mark_written_overview env1) z x y).1 ≠ .written ∧
      FsAction.writeTile z x y ∉ (generate_overview_tile (mark_written_overview env1) z x y).2) := by
  have hbase : ∀ (env : BaseTileEnv) (z x y : ℕ), env.tile_exists z x y = true →
      generate_base_tile env z x y = (.existing, []) := by
    intro env z x y h
    have hasm : assemble_base_tile env z x y = .existing := by
      unfold assemble_base_tile
      rw [h]
      rfl
    unfold generate_base_tile
    rw [hasm]
  have hov : ∀ (env : OverviewEnv) (z x y : ℕ), env.tile_exists z x y = true →
      generate_overview_tile env z x y = (.existing, []) := by
    intro env z x y h
    unfold generate_overview_tile
    rw [h]
    rfl
  refine ⟨hbase, hov, ?_, ?_⟩
  · intro env1 z x y
    by_cases hw : (generate_base_tile env1 z x y).1 = .written
    · have hex : (mark_written_base env1).tile_exists z x y = true := by
        simp [mark_written_base, hw]
      rw [hbase _ z x y hex]
      simp
    · have heq : generate_base_tile (mark_written_base env1) z x y =
          generate_base_tile env1 z x y := by
        unfold generate_base_tile assemble_base_tile assembled_alpha mark_written_base
        simp only [decide_eq_false hw, Bool.or_false]
      rw [heq]
      exact ⟨hw, fun hmem => hw (writeTile_mem_generate_base env1 z x y z x y hmem)⟩
  · intro env1 z x y
    by_cases hw : (generate_overview_tile env1 z x y).1 = .written
    · have hex : (mark_written_overview env1).tile_exists z x y = true := by
        simp [mark_written_overview, hw]
      rw [hov _ z x y hex]
      simp
    · have heq : generate_overview_tile (mark_written_overview env1) z x y =
          generate_overview_tile env1 z x y := by
        unfold generate_overview_tile composite_alpha mark_written_overview
        simp only [decide_eq_false hw, Bool.or_false]
      rw [heq]
      exact ⟨hw, fun hmem => hw (writeTile_mem_generate_overview env1 z x y z x y hmem)⟩

/-- An output tree in which every tile already exists. -/
def env_full : OverviewEnv :=
  OverviewEnv.mk (fun _ _ _ => true) (fun _ _ _ => none) id true
    (fun _ _ => true) true

theorem no_tile_overwrite_witness :
    generate_overview_tile env_full 3 1 2 = (.existing, []) :=
  no_tile_overwrite.2.1 env_full 3 1 2 rfl

end Aeronav
